import Mathlib

set_option maxHeartbeats 1000000

/- Shallow embedding of the dataset-splitting and cross-validation code of
   create_datasets/save_datasets.py and single_experiment_runner.py.

   Conventions used throughout:
   * a numpy 3-d array is modeled as a rectangular shape (s0, s1, s2) together
     with a valuation function (numpy arrays are rectangular, so len(x[0][0])
     is the third shape component);
   * Python floats are modeled as exact rationals; np.round is modeled as
     exact round-half-to-even (rheQ / rhe10 below);
   * a raised exception (IndexError, KeyError, NameError, ValueError,
     ZeroDivisionError) is modeled as Option.none of the embedded function;
   * Python negative list indexing is modeled explicitly (pyGet). -/

/-- A 3-dimensional numpy array: a rectangular shape together with a valuation. -/
structure Arr3 (α : Type) where
  s0 : Nat
  s1 : Nat
  s2 : Nat
  val : Nat → Nat → Nat → α

/-- Lexicographic enumeration of all index triples of a (s0, s1, s2) array,
in the order of the triple nested loop of get_size_mask. -/
def idxTriples (s0 s1 s2 : Nat) : List (Nat × Nat × Nat) :=
  (List.range s0).flatMap fun xx =>
    (List.range s1).flatMap fun yy =>
      (List.range s2).map fun zz => (xx, yy, zz)

/-- The running state of get_size_mask: mask_range[0] (minima), mask_range[1]
(maxima) and the volume counter.  The minima start at the shape and the maxima
at -1, exactly as in the source, hence the Int type. -/
structure GsmState where
  min0 : Int
  min1 : Int
  min2 : Int
  max0 : Int
  max1 : Int
  max2 : Int
  vol : Nat

/-- One iteration of the innermost body of the get_size_mask triple loop. -/
def gsmStep (m : Arr3 Bool) (st : GsmState) (t : Nat × Nat × Nat) : GsmState :=
  if m.val t.1 t.2.1 t.2.2 then
    { min0 := min st.min0 (t.1 : Int), min1 := min st.min1 (t.2.1 : Int),
      min2 := min st.min2 (t.2.2 : Int),
      max0 := max st.max0 (t.1 : Int), max1 := max st.max1 (t.2.1 : Int),
      max2 := max st.max2 (t.2.2 : Int),
      vol := st.vol + 1 }
  else st

/-- get_size_mask of save_datasets.py: box size enclosing all set voxels of the
mask, and number of set voxels. -/
def get_size_mask (m : Arr3 Bool) : (Int × Int × Int) × Nat :=
  let st := (idxTriples m.s0 m.s1 m.s2).foldl (gsmStep m)
    { min0 := (m.s0 : Int), min1 := (m.s1 : Int), min2 := (m.s2 : Int),
      max0 := -1, max1 := -1, max2 := -1, vol := 0 }
  ((st.max0 - st.min0 + 1, st.max1 - st.min1 + 1, st.max2 - st.min2 + 1), st.vol)

/-- get_bucket of save_datasets.py.  The ZeroDivisionError handler that sets
current_ratio to 0 is modeled by the explicit zero test. -/
def get_bucket (bucket0 bucket1 : Int) (ratio : ℚ) : Nat :=
  let current_ratio : ℚ :=
    if bucket0 + bucket1 = 0 then 0 else (bucket0 : ℚ) / ((bucket0 : ℚ) + (bucket1 : ℚ))
  if current_ratio < ratio then 0 else 1

/-- numpy round (half to even) of an exact rational value, as an integer. -/
def rheQ (q : ℚ) : Int :=
  let f := ⌊q⌋
  if q - f < 1/2 then f
  else if (1 : ℚ)/2 < q - f then f + 1
  else if f % 2 = 0 then f else f + 1

/-- numpy round (half to even) of m / 10 for a natural m, as a natural number. -/
def rhe10 (m : Nat) : Nat :=
  if m % 10 < 5 then m / 10
  else if 5 < m % 10 then m / 10 + 1
  else if m / 10 % 2 = 0 then m / 10 else m / 10 + 1

/-- Python list indexing with negative-index wraparound; none models an
IndexError. -/
def pyGet (l : List Int) (i : Int) : Option Int :=
  let j : Int := if i < 0 then (l.length : Int) + i else i
  if 0 ≤ j ∧ j < (l.length : Int) then some (l.getD j.toNat 0) else none

/-- num_left of trim_edges: int(np.round(len(array_sort) * trim_pos[0])). -/
def trimNumLeft (n : Nat) (trim_pos : ℚ × ℚ) : Int :=
  rheQ ((n : ℚ) * trim_pos.1)

/-- num_right of trim_edges:
int(np.round(len(array_sort) * (1 - trim_pos[1] + trim_pos[0])) - num_left). -/
def trimNumRight (n : Nat) (trim_pos : ℚ × ℚ) : Int :=
  rheQ ((n : ℚ) * (1 - trim_pos.2 + trim_pos.1)) - trimNumLeft n trim_pos

/-- One dataset element: a volume, its label, its patient name and its mask. -/
abbrev DataElt : Type := Arr3 ℚ × Int × String × Arr3 Bool

/-- The sort key that the body of the trim_edges loop recomputes for a dataset
element: number of slices (len(x[0][0]) = shape[2]), mask volume, or product of
the mask box dimensions, depending on sort_method. -/
def sortKey (sort_method : String) (x : Arr3 ℚ) (m : Arr3 Bool) : Int :=
  if sort_method = "slices" then (x.s2 : Int)
  else if sort_method = "sizes" then ((get_size_mask m).2 : Int)
  else (get_size_mask m).1.1 * (get_size_mask m).1.2.1 * (get_size_mask m).1.2.2

/-- The keep/trim decision of one iteration of the trim_edges loop; none models
the invalid sort_method branch that makes trim_edges return None. -/
def keepCheck (sort_method : String) (val_left val_right : Int) (x : Arr3 ℚ) (m : Arr3 Bool) :
    Option Bool :=
  let slices : Int := (x.s2 : Int)
  let size : Int := ((get_size_mask m).2 : Int)
  let size_box : Int :=
    (get_size_mask m).1.1 * (get_size_mask m).1.2.1 * (get_size_mask m).1.2.2
  if sort_method = "slices" then some (decide (val_left < slices ∧ slices < val_right))
  else if sort_method = "sizes" then some (decide (val_left < size ∧ size < val_right))
  else if sort_method = "sizes_masks" then
    some (decide (val_left < size_box ∧ size_box < val_right))
  else none

/-- The filtering loop of trim_edges over the zipped dataset. -/
def trimLoop (sort_method : String) (val_left val_right : Int) :
    List DataElt → Option (List DataElt)
  | [] => some []
  | e :: rest =>
    match keepCheck sort_method val_left val_right e.1 e.2.2.2 with
    | none => none
    | some true =>
      match trimLoop sort_method val_left val_right rest with
      | none => none
      | some kept => some (e :: kept)
    | some false => trimLoop sort_method val_left val_right rest

/-- Unzipping of the kept elements into the four returned lists of
trim_edges; none propagates the invalid-sort_method return None. -/
def trimFinish (r : Option (List DataElt)) :
    Option (List (Arr3 ℚ) × List Int × List String × List (Arr3 Bool)) :=
  match r with
  | none => none
  | some kept =>
    some (kept.map (fun e => e.1), kept.map (fun e => e.2.1),
          kept.map (fun e => e.2.2.1), kept.map (fun e => e.2.2.2))

/-- The part of trim_edges after val_left and val_right are looked up; a
failed lookup (Python IndexError) propagates as none. -/
def trimSelect (sort_method : String) (zipped : List DataElt) (o1 o2 : Option Int) :
    Option (List (Arr3 ℚ) × List Int × List String × List (Arr3 Bool)) :=
  match o1, o2 with
  | some val_left, some val_right =>
    trimFinish (trimLoop sort_method val_left val_right zipped)
  | _, _ => none

/-- trim_edges of save_datasets.py.  val_left and val_right are the values of
array_sort at the sorted positions num_left - 1 and -num_right (Python
indexing); none models an uncaught IndexError or the invalid-sort_method
return None. -/
def trim_edges (array_sort : List Int) (sort_method : String) (x_set : List (Arr3 ℚ))
    (y_set : List Int) (patients : List String) (masks : List (Arr3 Bool))
    (trim_pos : ℚ × ℚ) :
    Option (List (Arr3 ℚ) × List Int × List String × List (Arr3 Bool)) :=
  let num_left := trimNumLeft array_sort.length trim_pos
  let num_right := trimNumRight array_sort.length trim_pos
  let sorted_keys := List.insertionSort (fun a b => a ≤ b) array_sort
  trimSelect sort_method (x_set.zip (y_set.zip (patients.zip masks)))
    (pyGet sorted_keys (num_left - 1)) (pyGet sorted_keys (0 - num_right))

/-- np.rot90 in the plane of the first two axes:
rot90(m)[i, j, k] = m[j, s1 - 1 - i, k]. -/
def rot90 {α : Type} (v : Arr3 α) : Arr3 α :=
  ⟨v.s1, v.s0, v.s2, fun i j k => v.val j (v.s1 - 1 - i) k⟩

/-- np.rot90 with parameter k: r successive rotations. -/
def rotK {α : Type} (v : Arr3 α) : Nat → Arr3 α
  | 0 => v
  | r + 1 => rot90 (rotK v r)

/-- numpy slicing v[:, :, idx : idx + spp], with Python clamping of the slice
bounds to the array extent. -/
def sliceZ {α : Type} (v : Arr3 α) (idx spp : Nat) : Arr3 α :=
  ⟨v.s0, v.s1, min (idx + spp) v.s2 - min idx v.s2, fun i j k => v.val i j (min idx v.s2 + k)⟩

/-- All values of a volume, in lexicographic order (for np.max / np.min). -/
def allVals (v : Arr3 ℚ) : List ℚ :=
  (List.range v.s0).flatMap fun i =>
    (List.range v.s1).flatMap fun j =>
      (List.range v.s2).map fun k => v.val i j k

/-- The normalization step of generate_2D_dataset: (v - min) / (max - min).
none models the ValueError of np.max on an empty array.  (For a constant
volume numpy produces nan values without raising; here rational division by
zero yields 0 instead, which no claim depends on.) -/
def normalizeVol (v : Arr3 ℚ) : Option (Arr3 ℚ) :=
  match allVals v with
  | [] => none
  | a :: rest =>
    let maxv := rest.foldl max a
    let minv := rest.foldl min a
    some ⟨v.s0, v.s1, v.s2, fun i j k => (v.val i j k - minv) / (maxv - minv)⟩

/-- The four parallel outputs of generate_2D_dataset. -/
abbrev Dataset4 : Type := List (Arr3 ℚ) × List Int × List String × List (Arr3 Bool)

/-- The string appended to the patient name for rotation r. -/
def rotSuffix (r : Nat) : String := if r ≠ 0 then toString (r * 90) else ""

/-- One append step of generate_2D_dataset.  The NameError branch (datasets not
yet initialized) corresponds to the empty accumulated lists; a np.concatenate
shape mismatch (ValueError) is modeled by the shape test against the first
accumulated sample and yields none. -/
def g2dStep (st : Option Dataset4) (image : Arr3 ℚ) (label : Int) (patient : String)
    (mask_image : Arr3 Bool) : Option Dataset4 :=
  match st with
  | none => none
  | some (xs, ys, ps, ms) =>
    match xs.head?, ms.head? with
    | none, _ => some ([image], [label], [patient], [mask_image])
    | some x0, some m0 =>
      if image.s0 = x0.s0 ∧ image.s1 = x0.s1 ∧ image.s2 = x0.s2
          ∧ mask_image.s0 = m0.s0 ∧ mask_image.s1 = m0.s1 ∧ mask_image.s2 = m0.s2 then
        some (xs ++ [image], ys ++ [label], ps ++ [patient], ms ++ [mask_image])
      else none
    | some _, none => none

/-- Number of iterations of `for idx in range(vol.shape[2] - spp + 1)`
(a nonpositive Python range is empty). -/
def sampleCount (spp d : Nat) : Nat := if spp ≤ d then d - spp + 1 else 0

/-- Processing of one input volume by generate_2D_dataset: for every rotation,
slide a window of spp slices along the third axis and append each sample. -/
def g2dVolume (spp rotations : Nat) (st0 : Option Dataset4) (volume : Arr3 ℚ) (label : Int)
    (patient : String) (mask : Arr3 Bool) : Option Dataset4 :=
  (List.range rotations).foldl (fun st r =>
    let vol := rotK volume r
    let msk := rotK mask r
    (List.range (sampleCount spp vol.s2)).foldl (fun st2 idx =>
      g2dStep st2 (sliceZ vol idx spp) label (patient ++ rotSuffix r) (sliceZ msk idx spp)) st)
    st0

/-- Processing of one element of the zipped input by generate_2D_dataset:
optional normalization of the volume, then the rotation/window loops. -/
def g2dItemStep (spp rotations : Nat) (normalize : Bool) (st : Option Dataset4)
    (e : Arr3 ℚ × Int × String × Arr3 Bool) : Option Dataset4 :=
  match st with
  | none => none
  | some st2 =>
    match (if normalize then normalizeVol e.1 else some e.1) with
    | none => none
    | some volume => g2dVolume spp rotations (some st2) volume e.2.1 e.2.2.1 e.2.2.2

/-- generate_2D_dataset of save_datasets.py.  The final match models the
NameError raised by the return statement when no sample was ever produced. -/
def generate_2D_dataset (samples : List (Arr3 ℚ)) (labels : List Int) (patients : List String)
    (masks : List (Arr3 Bool)) (spp : Nat) (rotate_data : Bool) (normalize : Bool) :
    Option Dataset4 :=
  let rotations := if rotate_data then 4 else 1
  let res := (samples.zip (labels.zip (patients.zip masks))).foldl
    (g2dItemStep spp rotations normalize) (some ([], [], [], []))
  match res with
  | none => none
  | some (xs, ys, ps, ms) =>
    match xs with
    | [] => none
    | _ :: _ => some (xs, ys, ps, ms)

/-- Observable filesystem effects of save_dataset_correctly. -/
inductive SaveEvent
  | mkdirOk (path : String)
  | mkdirFailCaught (path : String)
  | npzSaved (path : String)
  | pklXY (path : String)
  | pklPatients (path : String)
  | pklMasks (path : String)

/-- save_dataset_correctly of save_datasets.py as a trace of filesystem
effects.  The Boolean parameters are exception oracles: whether each os.mkdir
raises OSError (directory already exists) and whether np.savez raises
ValueError.  Both exceptions are handled in the source, so the embedded
function is total and always produces the full trace. -/
def save_dataset_correctly (parent_folder dataset_name dataset_subname : String)
    (mkdir1Fails mkdir2Fails savezFails : Bool) : List SaveEvent :=
  let full_path := parent_folder ++ "/"
  let ev1 := if mkdir1Fails then SaveEvent.mkdirFailCaught full_path
             else SaveEvent.mkdirOk full_path
  let folder_path := full_path ++ dataset_name ++ "/"
  let ev2 := if mkdir2Fails then SaveEvent.mkdirFailCaught folder_path
             else SaveEvent.mkdirOk folder_path
  let file_path := folder_path ++ dataset_subname
  let saveEvs :=
    if savezFails then [SaveEvent.pklXY (file_path ++ ".pkl")]
    else [SaveEvent.npzSaved (file_path ++ ".npz")]
  [ev1, ev2] ++ saveEvs ++
    [SaveEvent.pklPatients (file_path ++ "_patients.pkl"),
     SaveEvent.pklMasks (file_path ++ "_masks.pkl")]

/-- The x/y loading of one .npz file in load_organized_dataset: try keys "x"
and "y", on KeyError fall back to "arr_0" and "arr_1"; none models an uncaught
KeyError.  The file is modeled as a partial map from key names to arrays. -/
def loadXY (α : Type) (f : String → Option α) : Option (α × α) :=
  match f "x", f "y" with
  | some x, some y => some (x, y)
  | _, _ =>
    match f "arr_0", f "arr_1" with
    | some a, some b => some (a, b)
    | _, _ => none

/-- load_organized_dataset of single_experiment_runner.py restricted to its
npz part: the training file is read first, then the test file; an uncaught
KeyError in either aborts the function. -/
def load_organized_dataset (α : Type) (ftr fte : String → Option α) :
    Option ((α × α) × (α × α)) :=
  match loadXY α ftr with
  | none => none
  | some tr =>
    match loadXY α fte with
    | none => none
    | some te => some (tr, te)

/-- In-place update of the last element of a Python list (pp[-1] op= v). -/
def updateLast (f : ℚ → ℚ) : List ℚ → List ℚ
  | [] => []
  | [a] => [f a]
  | a :: b :: rest => a :: updateLast f (b :: rest)

/-- The loop of calculate_patients_label; the state is (patient_percentages,
prev_patient, num_slices).  none models the IndexError of pp[-1] on an empty
list, which happens when the first patient equals the initial sentinel "". -/
def cplLoop : List (ℚ × String) → List ℚ → String → Nat → Option (List ℚ × Nat)
  | [], pp, _, num_slices => some (pp, num_slices)
  | (label, patient) :: rest, pp, prev_patient, num_slices =>
    if patient = prev_patient then
      match pp with
      | [] => none
      | _ :: _ =>
        cplLoop rest (updateLast (fun v => v + label) pp) prev_patient (num_slices + 1)
    else
      let pp2 := if pp.isEmpty then pp else updateLast (fun v => v / (num_slices : ℚ)) pp
      cplLoop rest (pp2 ++ [label]) patient 1

/-- The final pp[-1] /= num_slices of calculate_patients_label; none models
the IndexError on an empty patient_percentages list. -/
def cplFinish (r : Option (List ℚ × Nat)) : Option (List ℚ) :=
  match r with
  | none => none
  | some (pp, num_slices) =>
    match pp with
    | [] => none
    | _ :: _ => some (updateLast (fun v => v / (num_slices : ℚ)) pp)

/-- calculate_patients_label of single_experiment_runner.py.  none models the
uncaught IndexError (empty input, or first patient equal to ""). -/
def calculate_patients_label (slices_labels : List ℚ) (patients : List String) :
    Option (List ℚ) :=
  cplFinish (cplLoop (slices_labels.zip patients) [] "" 0)

/-- The folds_indices loop of do_cross_validation (patient_level_cv branch):
whenever the patient changes and the per-fold patient budget is exceeded, the
current index starts a new fold. -/
def cvFoldLoop (num_patients_per_fold : Nat) :
    List String → Nat → String → Nat → List Nat
  | [], _, _, _ => []
  | patient :: rest, i, prev_patient, patient_num =>
    if patient = prev_patient then
      cvFoldLoop num_patients_per_fold rest (i + 1) prev_patient patient_num
    else if num_patients_per_fold < patient_num + 1 then
      i :: cvFoldLoop num_patients_per_fold rest (i + 1) patient 1
    else
      cvFoldLoop num_patients_per_fold rest (i + 1) patient (patient_num + 1)

/-- folds_indices of do_cross_validation with patient_level_cv=True:
num_folds = 11, num_patients_per_fold = ceil(num_patients / 11), initial
prev_patient = "" and patient_num = 0; the list starts with 0 and ends with
len(patients_whole). -/
def foldsIndices (patients_whole : List String) (num_patients : Nat) : List Nat :=
  let num_patients_per_fold := (num_patients + 10) / 11
  0 :: (cvFoldLoop num_patients_per_fold patients_whole 0 "" 0 ++ [patients_whole.length])

/-- Fold boundary of the slice-level branch of do_cross_validation:
int(np.round(i * (n / num_folds))) with num_folds = 10, modeled exactly. -/
def foldBoundary (n i : Nat) : Nat := rhe10 (i * n)

/-- State of the train/test distribution loop of improved_save_data:
train_nums and test_nums (first index: below/above median group, second index:
label), the four train lists, the four test lists, and median_indices. -/
structure TT where
  tn0 : Nat × Nat
  tn1 : Nat × Nat
  en0 : Nat × Nat
  en1 : Nat × Nat
  trX : List (Arr3 ℚ)
  trY : List (Fin 2)
  trP : List String
  trM : List (Arr3 Bool)
  teX : List (Arr3 ℚ)
  teY : List (Fin 2)
  teP : List String
  teM : List (Arr3 Bool)
  med0 : List Nat
  med1 : List Nat

/-- The initial (all empty) distribution state. -/
def initTT : TT :=
  ⟨(0, 0), (0, 0), (0, 0), (0, 0), [], [], [], [], [], [], [], [], [], []⟩

/-- nums[label] for a label in {0, 1}. -/
def pick (p : Nat × Nat) (l : Fin 2) : Nat := if l = 0 then p.1 else p.2

/-- nums[label] += 1 for a label in {0, 1}. -/
def bump (p : Nat × Nat) (l : Fin 2) : Nat × Nat :=
  if l = 0 then (p.1 + 1, p.2) else (p.1, p.2 + 1)

/-- Append one element to the four train lists. -/
def pushTrain (st : TT) (v : Arr3 ℚ) (y : Fin 2) (p : String) (m : Arr3 Bool) : TT :=
  { st with trX := st.trX ++ [v], trY := st.trY ++ [y],
            trP := st.trP ++ [p], trM := st.trM ++ [m] }

/-- Append one element to the four test lists. -/
def pushTest (st : TT) (v : Arr3 ℚ) (y : Fin 2) (p : String) (m : Arr3 Bool) : TT :=
  { st with teX := st.teX ++ [v], teY := st.teY ++ [y],
            teP := st.teP ++ [p], teM := st.teM ++ [m] }

/-- One iteration of the main distribution loop of improved_save_data.
medians is medians_by_label, absNums is results[3] (abs_num_slices per input
element), ratio is train_to_total_ratio. -/
def distStep (medians : Fin 2 → ℚ) (ratio : ℚ) (absNums : List Int) (st : TT)
    (e : Nat × Fin 2 × String × Arr3 ℚ × Arr3 Bool) : TT :=
  let i := e.1
  let label := e.2.1
  let patient := e.2.2.1
  let volume := e.2.2.2.1
  let mask := e.2.2.2.2
  let num_slices := volume.s2
  if num_slices < 3 then st
  else if absNums.getD i 0 < 3 then st
  else if (num_slices : ℚ) < medians label then
    if get_bucket (pick st.tn0 label : Nat) (pick st.en0 label : Nat) ratio = 0 then
      pushTrain { st with tn0 := bump st.tn0 label } volume label patient mask
    else
      pushTest { st with en0 := bump st.en0 label } volume label patient mask
  else if medians label < (num_slices : ℚ) then
    if get_bucket (pick st.tn1 label : Nat) (pick st.en1 label : Nat) ratio = 0 then
      pushTrain { st with tn1 := bump st.tn1 label } volume label patient mask
    else
      pushTest { st with en1 := bump st.en1 label } volume label patient mask
  else
    if label = 0 then { st with med0 := st.med0 ++ [i] }
    else { st with med1 := st.med1 ++ [i] }

/-- A default volume and a default mask for indexed access (the collected
median indices are always in range in the source). -/
def defaultVol : Arr3 ℚ := ⟨0, 0, 0, fun _ _ _ => 0⟩

/-- Default mask (see defaultVol). -/
def defaultMask : Arr3 Bool := ⟨0, 0, 0, fun _ _ _ => false⟩

/-- One iteration of the second loop of improved_save_data, distributing the
elements whose slice count equals the label median. -/
def medStep (ratio : ℚ) (x_set : List (Arr3 ℚ)) (patients : List String)
    (masks : List (Arr3 Bool)) (label : Fin 2) (st : TT) (index : Nat) : TT :=
  let volume := x_set.getD index defaultVol
  let patient := patients.getD index ""
  let mask := masks.getD index defaultMask
  if get_bucket ((pick st.tn0 label + pick st.tn1 label : Nat) : Int)
      ((pick st.en0 label + pick st.en1 label : Nat) : Int) ratio = 0 then
    pushTrain { st with tn0 := bump st.tn0 label } volume label patient mask
  else
    pushTest { st with en0 := bump st.en0 label } volume label patient mask

/-- Python list.pop(): the last element and the remaining list; none models
the IndexError on an empty list. -/
def popLast {α : Type} (l : List α) : Option (α × List α) :=
  match l.getLast? with
  | none => none
  | some a => some (a, l.dropLast)

/-- The final one-element rebalance move of improved_save_data.  none models
the ZeroDivisionError when both sets are empty, or a pop from an empty list. -/
def rebalance (ratio : ℚ) (st : TT) : Option TT :=
  let T := st.trX.length
  let E := st.teX.length
  if T + E = 0 then none
  else
    let cur := |(T : ℚ) / ((T : ℚ) + (E : ℚ)) - ratio|
    let cur0 := |((T : ℚ) + 1) / ((T : ℚ) + (E : ℚ)) - ratio|
    let cur1 := |((T : ℚ) - 1) / ((T : ℚ) + (E : ℚ)) - ratio|
    if cur0 < cur then
      match popLast st.teX, popLast st.teY, popLast st.teP, popLast st.teM with
      | some (x, xs), some (y, ys), some (p, ps), some (m, ms) =>
        some { st with trX := st.trX ++ [x], trY := st.trY ++ [y],
                       trP := st.trP ++ [p], trM := st.trM ++ [m],
                       teX := xs, teY := ys, teP := ps, teM := ms }
      | _, _, _, _ => none
    else if cur1 < cur then
      match popLast st.trX, popLast st.trY, popLast st.trP, popLast st.trM with
      | some (x, xs), some (y, ys), some (p, ps), some (m, ms) =>
        some { st with teX := st.teX ++ [x], teY := st.teY ++ [y],
                       teP := st.teP ++ [p], teM := st.teM ++ [m],
                       trX := xs, trY := ys, trP := ps, trM := ms }
      | _, _, _, _ => none
    else some st

/-- The enumerated zip of the main distribution loop:
for i, (label, patient, volume, mask) in enumerate(zip(...)). -/
def improvedEnum (y_set : List (Fin 2)) (patients : List String) (x_set : List (Arr3 ℚ))
    (masks : List (Arr3 Bool)) : List (Nat × Fin 2 × String × Arr3 ℚ × Arr3 Bool) :=
  let zipped := y_set.zip (patients.zip (x_set.zip masks))
  (List.range zipped.length).zip zipped

/-- The train/test distribution section of improved_save_data: the main loop,
the two median-index loops (labels 0 and 1), then the rebalance move.  The
upstream statistics (medians_by_label and results[3]) are parameters, since
analyze_data is plotting glue. -/
def improved_split (medians : Fin 2 → ℚ) (ratio : ℚ) (x_set : List (Arr3 ℚ))
    (y_set : List (Fin 2)) (patients : List String) (masks : List (Arr3 Bool))
    (absNums : List Int) : Option TT :=
  let st1 := (improvedEnum y_set patients x_set masks).foldl
    (distStep medians ratio absNums) initTT
  let st2 := st1.med0.foldl (medStep ratio x_set patients masks 0) st1
  let st3 := st1.med1.foldl (medStep ratio x_set patients masks 1) st2
  rebalance ratio st3

/-- The set voxels of a mask, in the visiting order of the get_size_mask
triple loop. -/
def gsmTrues (m : Arr3 Bool) : List (Nat × Nat × Nat) :=
  (idxTriples m.s0 m.s1 m.s2).filter fun t => m.val t.1 t.2.1 t.2.2

/-- Spec-side: the set of index triples of the set voxels of a mask. -/
def maskSet (m : Arr3 Bool) : Finset (Nat × Nat × Nat) :=
  (Finset.range m.s0 ×ˢ Finset.range m.s1 ×ˢ Finset.range m.s2).filter
    (fun t => m.val t.1 t.2.1 t.2.2 = true)

/-- Spec-side: the fill ratio of two buckets, taken as 0 for empty buckets. -/
def fillRatioSpec (bucket0 bucket1 : Int) : ℚ :=
  if bucket0 = 0 ∧ bucket1 = 0 then 0 else (bucket0 : ℚ) / ((bucket0 : ℚ) + (bucket1 : ℚ))

/-- Spec-side: uncaught-KeyError condition for one npz file map. -/
def npzFails {α : Type} (f : String → Option α) : Prop :=
  (f "x" = none ∨ f "y" = none) ∧ (f "arr_0" = none ∨ f "arr_1" = none)

/-- Spec-side: prepend an element to the first run if it continues it,
otherwise start a new run. -/
def insertRun (x : ℚ × String) : List (List (ℚ × String)) → List (List (ℚ × String))
  | [] => [[x]]
  | r :: rs =>
    match r.head? with
    | some y => if y.2 = x.2 then (x :: r) :: rs else [x] :: r :: rs
    | none => [x] :: r :: rs

/-- Spec-side: the maximal contiguous runs of equal patient identifiers. -/
def adjRuns (l : List (ℚ × String)) : List (List (ℚ × String)) := l.foldr insertRun []

/-- Spec-side: the arithmetic mean of the labels of one run. -/
def runMean (r : List (ℚ × String)) : ℚ := (r.map Prod.fst).sum / (r.length : ℚ)

/-- Bridge for the calculate_patients_label proof: the means produced from a
partial current run (sum s over ns labels, patient prev) followed by rest. -/
def runMeans : List (ℚ × String) → String → ℚ → Nat → List ℚ
  | [], _, s, ns => [s / (ns : ℚ)]
  | (label, patient) :: rest, prev, s, ns =>
    if patient = prev then runMeans rest prev (s + label) (ns + 1)
    else (s / (ns : ℚ)) :: runMeans rest patient label 1

/-- Equal-length condition on the four train lists and the four test lists of
a distribution state. -/
def EqLens (st : TT) : Prop :=
  (st.trX.length = st.trY.length ∧ st.trY.length = st.trP.length
    ∧ st.trP.length = st.trM.length)
  ∧ (st.teX.length = st.teY.length ∧ st.teY.length = st.teP.length
    ∧ st.teP.length = st.teM.length)

/-- Equal-length condition on the four parallel lists of a dataset tuple
(the return shape of trim_edges and generate_2D_dataset). -/
def EqLens4 (d : List (Arr3 ℚ) × List Int × List String × List (Arr3 Bool)) : Prop :=
  d.1.length = d.2.1.length ∧ d.2.1.length = d.2.2.1.length
    ∧ d.2.2.1.length = d.2.2.2.length

/-- The state of the train/test distribution section of improved_save_data
after k1 iterations of the main distribution loop, then k2 iterations of the
label-0 median loop, then k3 iterations of the label-1 median loop (a count
beyond a loop's length gives that loop's final state, so every intermediate
state of the section is of this form). -/
def improvedStage (medians : Fin 2 → ℚ) (ratio : ℚ) (x_set : List (Arr3 ℚ))
    (y_set : List (Fin 2)) (patients : List String) (masks : List (Arr3 Bool))
    (absNums : List Int) (k1 k2 k3 : Nat) : TT :=
  let stA := ((improvedEnum y_set patients x_set masks).take k1).foldl
    (distStep medians ratio absNums) initTT
  let stB := (stA.med0.take k2).foldl (medStep ratio x_set patients masks 0) stA
  (stB.med1.take k3).foldl (medStep ratio x_set patients masks 1) stB

/-- All arrays in a list have shape (n, n, spp). -/
def ShapeAll {α : Type} (n spp : Nat) (xs : List (Arr3 α)) : Prop :=
  ∀ x ∈ xs, x.s0 = n ∧ x.s1 = n ∧ x.s2 = spp

/-- The sequence of (sample, label, patient, mask) tuples appended by
generate_2D_dataset while processing one input volume (after normalization). -/
def g2dAppends (spp rotations : Nat) (volume : Arr3 ℚ) (label : Int)
    (patient : String) (mask : Arr3 Bool) : List DataElt :=
  (List.range rotations).flatMap fun r =>
    (List.range (sampleCount spp (rotK volume r).s2)).map fun idx =>
      (sliceZ (rotK volume r) idx spp, label, patient ++ rotSuffix r,
        sliceZ (rotK mask r) idx spp)

/- ================================ THEOREMS ================================ -/

/- Helper lemmas shared by several developments. -/

theorem updateLast_append (f : ℚ → ℚ) (front : List ℚ) (s : ℚ) :
    updateLast f (front ++ [s]) = front ++ [f s] := by
  induction front with
  | nil => rfl
  | cons a front ih =>
    cases front with
    | nil => rfl
    | cons b front2 =>
      simpa only [List.cons_append, updateLast, List.cons.injEq, true_and] using ih

theorem cplFinish_append (front : List ℚ) (s : ℚ) (m : Nat) :
    cplFinish (some (front ++ [s], m)) = some (front ++ [s / (m : ℚ)]) := by
  obtain ⟨c, t, hct⟩ : ∃ c t, front ++ [s] = c :: t := by
    cases front with
    | nil => exact ⟨s, [], rfl⟩
    | cons a u => exact ⟨a, u ++ [s], rfl⟩
  rw [hct, cplFinish]
  rw [← hct, updateLast_append]

/- C5: get_bucket. -/

/-- C5: get_bucket always returns 0 or 1 and never raises (the embedded
function is total; the ZeroDivisionError handler yields current_ratio 0);
for nonnegative buckets it returns 0 exactly when the current fill ratio
(taken as 0 for empty buckets) is strictly less than ratio, and 1
otherwise. -/
theorem get_bucket_zero_or_one_and_iff (bucket0 bucket1 : Int) (ratio : ℚ) :
    (get_bucket bucket0 bucket1 ratio = 0 ∨ get_bucket bucket0 bucket1 ratio = 1)
    ∧ (0 ≤ bucket0 → 0 ≤ bucket1 →
        (get_bucket bucket0 bucket1 ratio = 0 ↔ fillRatioSpec bucket0 bucket1 < ratio)) := by
  constructor
  · by_cases h : (if bucket0 + bucket1 = 0 then (0 : ℚ)
        else (bucket0 : ℚ) / ((bucket0 : ℚ) + (bucket1 : ℚ))) < ratio
    · left
      simp [get_bucket, h]
    · right
      simp [get_bucket, h]
  · intro h0 h1
    have heq : (if bucket0 + bucket1 = 0 then (0 : ℚ)
        else (bucket0 : ℚ) / ((bucket0 : ℚ) + (bucket1 : ℚ)))
        = fillRatioSpec bucket0 bucket1 := by
      unfold fillRatioSpec
      by_cases h : bucket0 + bucket1 = 0
      · have h2 : bucket0 = 0 ∧ bucket1 = 0 := by omega
        simp [h, h2]
      · have h2 : ¬(bucket0 = 0 ∧ bucket1 = 0) := by omega
        simp [h, h2]
    by_cases h : fillRatioSpec bucket0 bucket1 < ratio
    · simp [get_bucket, heq, h]
    · simp [get_bucket, heq, h]

/-- Witness for C5: with buckets (2, 3) and target ratio 1/2 the fill ratio
2/5 is below the target, so bucket 0 is chosen. -/
theorem get_bucket_zero_or_one_and_iff_witness : get_bucket 2 3 (1/2) = 0 :=
  ((get_bucket_zero_or_one_and_iff 2 3 (1/2)).2 (by decide) (by decide)).mpr (by
    unfold fillRatioSpec
    norm_num)

/- C8: save_dataset_correctly. -/

/-- C8: save_dataset_correctly degrades gracefully.  Whatever the outcome of
the two os.mkdir calls (OSError caught on an existing directory), the rest of
the trace is unchanged, so an existing target directory never aborts the save;
the trace always has exactly five events; the third event is the .npz write
when np.savez does not raise ValueError and the x/y pickle to
'<file_path>.pkl' exactly when it does; and in both cases the patients pickle
and the masks pickle are written afterwards (events four and five). -/
theorem save_dataset_correctly_graceful (parent_folder dataset_name dataset_subname : String)
    (mkdir1Fails mkdir2Fails savezFails : Bool) :
    ((save_dataset_correctly parent_folder dataset_name dataset_subname
        mkdir1Fails mkdir2Fails savezFails).drop 2
      = (save_dataset_correctly parent_folder dataset_name dataset_subname
        false false savezFails).drop 2)
    ∧ (save_dataset_correctly parent_folder dataset_name dataset_subname
        mkdir1Fails mkdir2Fails savezFails).length = 5
    ∧ (save_dataset_correctly parent_folder dataset_name dataset_subname
        mkdir1Fails mkdir2Fails savezFails).getD 2 (SaveEvent.mkdirOk "")
      = (if savezFails then
          SaveEvent.pklXY (parent_folder ++ "/" ++ dataset_name ++ "/" ++ dataset_subname
            ++ ".pkl")
        else
          SaveEvent.npzSaved (parent_folder ++ "/" ++ dataset_name ++ "/" ++ dataset_subname
            ++ ".npz"))
    ∧ (save_dataset_correctly parent_folder dataset_name dataset_subname
        mkdir1Fails mkdir2Fails savezFails).getD 3 (SaveEvent.mkdirOk "")
      = SaveEvent.pklPatients (parent_folder ++ "/" ++ dataset_name ++ "/" ++ dataset_subname
          ++ "_patients.pkl")
    ∧ (save_dataset_correctly parent_folder dataset_name dataset_subname
        mkdir1Fails mkdir2Fails savezFails).getD 4 (SaveEvent.mkdirOk "")
      = SaveEvent.pklMasks (parent_folder ++ "/" ++ dataset_name ++ "/" ++ dataset_subname
          ++ "_masks.pkl") := by
  cases mkdir1Fails <;> cases mkdir2Fails <;> cases savezFails <;>
    exact ⟨rfl, rfl, rfl, rfl, rfl⟩

/- C7: load_organized_dataset. -/

theorem loadXY_none_iff (α : Type) (f : String → Option α) :
    loadXY α f = none ↔ npzFails f := by
  unfold loadXY npzFails
  rcases hx : f "x" with _ | x <;> rcases hy : f "y" with _ | y <;>
    rcases ha : f "arr_0" with _ | a <;> rcases hb : f "arr_1" with _ | b <;> simp

/-- C7 counterexample: a training npz map that contains the "x" key (but is
missing "y" and both fallback keys) still makes load_organized_dataset raise
an uncaught KeyError, contradicting the claim that an uncaught key error
propagates only when the "x" key is absent. -/
theorem load_organized_dataset_cex :
    load_organized_dataset Nat (fun s => if s = "x" then some 0 else none)
        (fun s => if s = "x" then some 0 else if s = "y" then some 0 else none) = none
    ∧ (fun s => if s = "x" then some (0 : Nat) else none) "x" = some 0 :=
  ⟨rfl, rfl⟩

/-- C7 (amended): for each npz file, load_organized_dataset returns the arrays
under "x" and "y" when both keys exist and otherwise the arrays under "arr_0"
and "arr_1"; an uncaught KeyError propagates exactly when, for the training
file or the test file, the "x" or "y" key is absent and an "arr_0" or "arr_1"
key is also absent. -/
theorem load_organized_dataset_spec (α : Type) (ftr fte : String → Option α) :
    (∀ x y, ftr "x" = some x → ftr "y" = some y → loadXY α ftr = some (x, y))
    ∧ ((ftr "x" = none ∨ ftr "y" = none) → ∀ a b, ftr "arr_0" = some a →
        ftr "arr_1" = some b → loadXY α ftr = some (a, b))
    ∧ (load_organized_dataset α ftr fte = none ↔ npzFails ftr ∨ npzFails fte) := by
  refine ⟨?_, ?_, ?_⟩
  · intro x y hx hy
    unfold loadXY
    rw [hx, hy]
  · intro hmiss a b ha hb
    unfold loadXY
    rcases h1 : ftr "x" with _ | x <;> rcases h2 : ftr "y" with _ | y <;>
      rcases hmiss with h | h <;> simp_all
  · unfold load_organized_dataset
    rcases h1 : loadXY α ftr with _ | tr
    · simp [(loadXY_none_iff α ftr).mp h1]
    · have htr : ¬ npzFails ftr := by
        intro h
        rw [(loadXY_none_iff α ftr).mpr h] at h1
        exact Option.noConfusion h1
      rcases h2 : loadXY α fte with _ | te
      · simp [(loadXY_none_iff α fte).mp h2, htr]
      · have hte : ¬ npzFails fte := by
          intro h
          rw [(loadXY_none_iff α fte).mpr h] at h2
          exact Option.noConfusion h2
        simp [htr, hte]

/-- Witness for C7: both files contain the "x" and "y" keys and the x/y pair
of the training file is returned. -/
theorem load_organized_dataset_spec_witness :
    loadXY Nat (fun s => if s = "x" then some 1 else if s = "y" then some 2 else none)
      = some (1, 2) :=
  (load_organized_dataset_spec Nat
    (fun s => if s = "x" then some 1 else if s = "y" then some 2 else none)
    (fun s => if s = "x" then some 1 else if s = "y" then some 2 else none)).1 1 2 rfl rfl

/- C10: calculate_patients_label. -/

theorem cplLoop_cons_same (l : ℚ) (p : String) (rest : List (ℚ × String))
    (c : ℚ) (t : List ℚ) (ns : Nat) :
    cplLoop ((l, p) :: rest) (c :: t) p ns
      = cplLoop rest (updateLast (fun v => v + l) (c :: t)) p (ns + 1) := by
  simp [cplLoop]

theorem cplLoop_cons_diff (l : ℚ) (p prev : String) (hp : p ≠ prev)
    (rest : List (ℚ × String)) (pp : List ℚ) (ns : Nat) :
    cplLoop ((l, p) :: rest) pp prev ns
      = cplLoop rest
          ((if pp.isEmpty then pp else updateLast (fun v => v / (ns : ℚ)) pp) ++ [l]) p 1 := by
  simp [cplLoop, hp]

theorem cplLoop_bridge (rest : List (ℚ × String)) :
    ∀ (front : List ℚ) (s : ℚ) (prev : String) (ns : Nat),
    cplFinish (cplLoop rest (front ++ [s]) prev ns)
      = some (front ++ runMeans rest prev s ns) := by
  induction rest with
  | nil =>
    intro front s prev ns
    rw [cplLoop, cplFinish_append]
    rfl
  | cons e rest ih =>
    intro front s prev ns
    obtain ⟨l, p⟩ := e
    by_cases hp : p = prev
    · subst hp
      obtain ⟨c, t, hct⟩ : ∃ c t, front ++ [s] = c :: t := by
        cases front with
        | nil => exact ⟨s, [], rfl⟩
        | cons a u => exact ⟨a, u ++ [s], rfl⟩
      rw [hct, cplLoop_cons_same, ← hct, updateLast_append, ih]
      rw [runMeans, if_pos rfl]
    · rw [cplLoop_cons_diff l p prev hp]
      rw [if_neg (by cases front <;> simp)]
      rw [updateLast_append, ih]
      rw [runMeans, if_neg hp, List.append_assoc]
      rfl

theorem adjRuns_cons_span :
    ∀ (rest : List (ℚ × String)) (c : String) (x : ℚ × String), x.2 = c →
    adjRuns (x :: rest)
      = (x :: rest.takeWhile (fun e => decide (e.2 = c)))
        :: adjRuns (rest.dropWhile (fun e => decide (e.2 = c))) := by
  intro rest
  induction rest with
  | nil =>
    intro c x hx
    rfl
  | cons y ys ih =>
    intro c x hx
    have hstep : adjRuns (x :: y :: ys) = insertRun x (adjRuns (y :: ys)) := rfl
    by_cases hy : y.2 = c
    · have hys := ih c y hy
      rw [hstep, hys, insertRun]
      have hxy : y.2 = x.2 := by rw [hx, hy]
      simp only [List.head?_cons, hxy, if_pos rfl]
      rw [List.takeWhile_cons_of_pos (by simp [hy]), List.dropWhile_cons_of_pos (by simp [hy])]
      simp
    · have hys := ih y.2 y rfl
      rw [hstep, hys, insertRun]
      have hxy : ¬ (y.2 = x.2) := by rw [hx]; exact hy
      simp only [List.head?_cons, if_neg hxy]
      rw [List.takeWhile_cons_of_neg (by simp [hy]), List.dropWhile_cons_of_neg (by simp [hy])]
      rw [← hys]

theorem runMean_cons (x : ℚ × String) (t : List (ℚ × String)) :
    runMean (x :: t) = (x.1 + (t.map Prod.fst).sum) / ((1 : ℚ) + (t.length : ℚ)) := by
  simp [runMean]
  ring_nf

theorem runMeans_span :
    ∀ (rest : List (ℚ × String)) (prev : String) (s : ℚ) (ns : Nat),
    runMeans rest prev s ns
      = ((s + ((rest.takeWhile (fun e => decide (e.2 = prev))).map Prod.fst).sum)
          / ((ns : ℚ) + ((rest.takeWhile (fun e => decide (e.2 = prev))).length : ℚ)))
        :: (adjRuns (rest.dropWhile (fun e => decide (e.2 = prev)))).map runMean := by
  intro rest
  induction rest with
  | nil =>
    intro prev s ns
    simp [runMeans, adjRuns]
  | cons e ys ih =>
    intro prev s ns
    obtain ⟨l, p⟩ := e
    by_cases hp : p = prev
    · rw [runMeans, if_pos hp, ih prev (s + l) (ns + 1)]
      rw [List.takeWhile_cons_of_pos (by simp [hp]), List.dropWhile_cons_of_pos (by simp [hp])]
      congr 1
      · simp only [List.map_cons, List.sum_cons, List.length_cons]
        push_cast
        ring_nf
    · rw [runMeans, if_neg hp, ih p l 1]
      rw [List.takeWhile_cons_of_neg (by simp [hp]), List.dropWhile_cons_of_neg (by simp [hp])]
      rw [adjRuns_cons_span ys p (l, p) rfl]
      simp only [List.map_cons, runMean_cons]
      simp

/-- C10 counterexample: for the non-empty input with a single slice whose
patient identifier is the empty string, calculate_patients_label raises an
uncaught IndexError (the identifier collides with the initial prev_patient
sentinel ""), instead of returning the one run mean the claim promises. -/
theorem calculate_patients_label_cex :
    calculate_patients_label [1] [""] = none ∧ ([""] : List String) ≠ [] :=
  ⟨rfl, by decide⟩

/-- C10 (amended): for non-empty equal-length inputs whose first patient
identifier is not the empty string, calculate_patients_label returns exactly
one value per maximal contiguous run of equal patient identifiers, in run
order, each value being the arithmetic mean of the labels of that run (a
patient reappearing in a later non-adjacent run yields a separate entry); on
empty input it raises an IndexError. -/
theorem calculate_patients_label_runs :
    (∀ (slices_labels : List ℚ) (patients : List String),
      slices_labels.length = patients.length → patients ≠ [] → patients.headD "" ≠ "" →
      calculate_patients_label slices_labels patients
        = some ((adjRuns (slices_labels.zip patients)).map runMean))
    ∧ calculate_patients_label [] [] = none := by
  constructor
  · intro ls ps hlen hne hhead
    cases ps with
    | nil => exact absurd rfl hne
    | cons p0 ps2 =>
      cases ls with
      | nil => simp at hlen
      | cons l0 ls2 =>
        have hp0 : p0 ≠ "" := by simpa using hhead
        unfold calculate_patients_label
        rw [List.zip_cons_cons, cplLoop_cons_diff l0 p0 "" hp0]
        simp only [List.isEmpty_nil, if_true, List.nil_append]
        have hb := cplLoop_bridge (ls2.zip ps2) [] l0 p0 1
        simp only [List.nil_append] at hb
        rw [hb, runMeans_span, adjRuns_cons_span (ls2.zip ps2) p0 (l0, p0) rfl]
        simp only [List.map_cons, runMean_cons]
        simp
  · rfl

/-- Witness for C10: three slices of two patients give the two run means
(1 + 0) / 2 and 1 / 1. -/
theorem calculate_patients_label_runs_witness :
    calculate_patients_label [1, 0, 1] ["a", "a", "b"]
      = some ((adjRuns ([(1 : ℚ), 0, 1].zip ["a", "a", "b"])).map runMean) :=
  calculate_patients_label_runs.1 [1, 0, 1] ["a", "a", "b"] (by decide) (by decide) (by decide)

/- C9: get_size_mask. -/

theorem foldl_min_le_init {β : Type} [LinearOrder β] :
    ∀ (l : List β) (a : β), l.foldl min a ≤ a := by
  intro l
  induction l with
  | nil => intro a; exact le_refl a
  | cons x l ih => intro a; exact le_trans (ih (min a x)) (min_le_left a x)

theorem foldl_min_le_mem {β : Type} [LinearOrder β] :
    ∀ (l : List β) (a x : β), x ∈ l → l.foldl min a ≤ x := by
  intro l
  induction l with
  | nil =>
    intro a x hx
    simp at hx
  | cons y l ih =>
    intro a x hx
    rcases List.mem_cons.mp hx with h | h
    · subst h
      exact le_trans (foldl_min_le_init l (min a x)) (min_le_right a x)
    · exact ih (min a y) x h

theorem foldl_min_mem {β : Type} [LinearOrder β] :
    ∀ (l : List β) (a : β), l.foldl min a = a ∨ l.foldl min a ∈ l := by
  intro l
  induction l with
  | nil => intro a; exact Or.inl rfl
  | cons y l ih =>
    intro a
    rcases ih (min a y) with h | h
    · rcases min_choice a y with hm | hm
      · exact Or.inl (by rw [List.foldl_cons, h, hm])
      · exact Or.inr (by rw [List.foldl_cons, h, hm]; exact List.mem_cons_self y l)
    · exact Or.inr (List.mem_cons_of_mem y h)

theorem foldl_max_init_le {β : Type} [LinearOrder β] :
    ∀ (l : List β) (a : β), a ≤ l.foldl max a := by
  intro l
  induction l with
  | nil => intro a; exact le_refl a
  | cons x l ih => intro a; exact le_trans (le_max_left a x) (ih (max a x))

theorem foldl_max_mem_le {β : Type} [LinearOrder β] :
    ∀ (l : List β) (a x : β), x ∈ l → x ≤ l.foldl max a := by
  intro l
  induction l with
  | nil =>
    intro a x hx
    simp at hx
  | cons y l ih =>
    intro a x hx
    rcases List.mem_cons.mp hx with h | h
    · subst h
      exact le_trans (le_max_right a x) (foldl_max_init_le l (max a x))
    · exact ih (max a y) x h

theorem foldl_max_mem {β : Type} [LinearOrder β] :
    ∀ (l : List β) (a : β), l.foldl max a = a ∨ l.foldl max a ∈ l := by
  intro l
  induction l with
  | nil => intro a; exact Or.inl rfl
  | cons y l ih =>
    intro a
    rcases ih (max a y) with h | h
    · rcases max_choice a y with hm | hm
      · exact Or.inl (by rw [List.foldl_cons, h, hm])
      · exact Or.inr (by rw [List.foldl_cons, h, hm]; exact List.mem_cons_self y l)
    · exact Or.inr (List.mem_cons_of_mem y h)

theorem gsm_foldl (m : Arr3 Bool) :
    ∀ (l : List (Nat × Nat × Nat)) (st : GsmState),
    l.foldl (gsmStep m) st =
      { min0 := ((l.filter fun t => m.val t.1 t.2.1 t.2.2).map
          fun t => (t.1 : Int)).foldl min st.min0,
        min1 := ((l.filter fun t => m.val t.1 t.2.1 t.2.2).map
          fun t => (t.2.1 : Int)).foldl min st.min1,
        min2 := ((l.filter fun t => m.val t.1 t.2.1 t.2.2).map
          fun t => (t.2.2 : Int)).foldl min st.min2,
        max0 := ((l.filter fun t => m.val t.1 t.2.1 t.2.2).map
          fun t => (t.1 : Int)).foldl max st.max0,
        max1 := ((l.filter fun t => m.val t.1 t.2.1 t.2.2).map
          fun t => (t.2.1 : Int)).foldl max st.max1,
        max2 := ((l.filter fun t => m.val t.1 t.2.1 t.2.2).map
          fun t => (t.2.2 : Int)).foldl max st.max2,
        vol := st.vol + (l.filter fun t => m.val t.1 t.2.1 t.2.2).length } := by
  intro l
  induction l with
  | nil =>
    intro st
    simp
  | cons t l ih =>
    intro st
    rw [List.foldl_cons, ih]
    simp only [List.filter_cons, gsmStep]
    split_ifs with h
    · simp only [List.map_cons, List.foldl_cons, List.length_cons, GsmState.mk.injEq,
        true_and, and_true]
      show st.vol + 1 + (List.filter (fun t => m.val t.1 t.2.1 t.2.2) l).length
        = st.vol + ((List.filter (fun t => m.val t.1 t.2.1 t.2.2) l).length + 1)
      omega
    · rfl

theorem mem_idxTriples (s0 s1 s2 : Nat) (t : Nat × Nat × Nat) :
    t ∈ idxTriples s0 s1 s2 ↔ t.1 < s0 ∧ t.2.1 < s1 ∧ t.2.2 < s2 := by
  obtain ⟨a, b, c⟩ := t
  simp only [idxTriples, List.mem_flatMap, List.mem_map, List.mem_range]
  constructor
  · rintro ⟨x, hx, y, hy, z, hz, heq⟩
    obtain ⟨rfl, rfl, rfl⟩ : x = a ∧ y = b ∧ z = c := by simpa using heq
    exact ⟨hx, hy, hz⟩
  · rintro ⟨ha, hb, hc⟩
    exact ⟨a, ha, b, hb, c, hc, rfl⟩

theorem mem_maskSet (m : Arr3 Bool) (t : Nat × Nat × Nat) :
    t ∈ maskSet m
      ↔ (t.1 < m.s0 ∧ t.2.1 < m.s1 ∧ t.2.2 < m.s2) ∧ m.val t.1 t.2.1 t.2.2 = true := by
  obtain ⟨a, b, c⟩ := t
  simp [maskSet, Finset.mem_filter, Finset.mem_product]

theorem mem_gsmTrues (m : Arr3 Bool) (t : Nat × Nat × Nat) :
    t ∈ (idxTriples m.s0 m.s1 m.s2).filter (fun t => m.val t.1 t.2.1 t.2.2)
      ↔ t ∈ maskSet m := by
  rw [List.mem_filter, mem_idxTriples, mem_maskSet]

theorem nodup_idxTriples (s0 s1 s2 : Nat) : (idxTriples s0 s1 s2).Nodup := by
  unfold idxTriples
  rw [List.nodup_flatMap]
  constructor
  · intro x hx
    rw [List.nodup_flatMap]
    constructor
    · intro y hy
      have hinj : Function.Injective (fun zz => ((x, y, zz) : Nat × Nat × Nat)) := by
        intro a b hab
        simpa using hab
      exact (List.nodup_range s2).map hinj
    · refine (List.nodup_range s1).imp ?_
      intro y yy hne a ha ha2
      simp only [List.mem_map, List.mem_range] at ha ha2
      obtain ⟨z, hz, rfl⟩ := ha
      obtain ⟨z2, hz2, heq⟩ := ha2
      have h3 : yy = y := by simpa using congrArg (fun q => q.2.1) heq
      exact hne h3.symm
  · refine (List.nodup_range s0).imp ?_
    intro x xx hne a ha ha2
    simp only [List.mem_flatMap, List.mem_map, List.mem_range] at ha ha2
    obtain ⟨y, hy, z, hz, rfl⟩ := ha
    obtain ⟨y2, hy2, z2, hz2, heq⟩ := ha2
    have h3 : xx = x := by simpa using congrArg (fun q => q.1) heq
    exact hne h3.symm

theorem gsmTrues_length (m : Arr3 Bool) :
    ((idxTriples m.s0 m.s1 m.s2).filter (fun t => m.val t.1 t.2.1 t.2.2)).length
      = (maskSet m).card := by
  rw [← List.toFinset_card_of_nodup ((nodup_idxTriples m.s0 m.s1 m.s2).filter _)]
  congr 1
  ext t
  rw [List.mem_toFinset]
  exact mem_gsmTrues m t

theorem mem_gsmTrues_map (m : Arr3 Bool) (f : Nat × Nat × Nat → Int) (x : Int) :
    x ∈ ((idxTriples m.s0 m.s1 m.s2).filter (fun t => m.val t.1 t.2.1 t.2.2)).map f
      ↔ x ∈ (maskSet m).image f := by
  simp only [List.mem_map, Finset.mem_image, mem_gsmTrues]

theorem foldl_min_eq_min' (s : Finset Int) (xs : List Int)
    (hmem : ∀ x, x ∈ xs ↔ x ∈ s) (a : Int) (ha : ∀ x ∈ s, x < a) (hne : s.Nonempty) :
    xs.foldl min a = s.min' hne := by
  have hr_mem : xs.foldl min a ∈ s := by
    rcases foldl_min_mem xs a with h | h
    · obtain ⟨x, hx⟩ := hne
      have h1 := foldl_min_le_mem xs a x ((hmem x).mpr hx)
      rw [h] at h1
      exact absurd (lt_of_le_of_lt h1 (ha x hx)) (lt_irrefl a)
    · exact (hmem _).mp h
  apply le_antisymm
  · exact foldl_min_le_mem xs a _ ((hmem _).mpr (Finset.min'_mem s hne))
  · exact Finset.min'_le s _ hr_mem

theorem foldl_max_eq_max' (s : Finset Int) (xs : List Int)
    (hmem : ∀ x, x ∈ xs ↔ x ∈ s) (a : Int) (ha : ∀ x ∈ s, a < x) (hne : s.Nonempty) :
    xs.foldl max a = s.max' hne := by
  have hr_mem : xs.foldl max a ∈ s := by
    rcases foldl_max_mem xs a with h | h
    · obtain ⟨x, hx⟩ := hne
      have h1 := foldl_max_mem_le xs a x ((hmem x).mpr hx)
      rw [h] at h1
      exact absurd (lt_of_lt_of_le (ha x hx) h1) (lt_irrefl a)
    · exact (hmem _).mp h
  apply le_antisymm
  · exact Finset.le_max' s _ hr_mem
  · exact foldl_max_mem_le xs a _ ((hmem _).mpr (Finset.max'_mem s hne))

theorem get_size_mask_eq (m : Arr3 Bool) :
    get_size_mask m =
      ((((gsmTrues m).map (fun t => (t.1 : Int))).foldl max (-1)
          - ((gsmTrues m).map (fun t => (t.1 : Int))).foldl min (m.s0 : Int) + 1,
        ((gsmTrues m).map (fun t => (t.2.1 : Int))).foldl max (-1)
          - ((gsmTrues m).map (fun t => (t.2.1 : Int))).foldl min (m.s1 : Int) + 1,
        ((gsmTrues m).map (fun t => (t.2.2 : Int))).foldl max (-1)
          - ((gsmTrues m).map (fun t => (t.2.2 : Int))).foldl min (m.s2 : Int) + 1),
       0 + (gsmTrues m).length) := by
  simp only [get_size_mask]
  rw [gsm_foldl]
  rfl

/-- C9: get_size_mask returns as volume the number of set voxels; when at
least one voxel is set, each box_size component equals, per axis, the maximum
set index minus the minimum set index plus one, hence is at least 1, and the
min/max box encloses every set voxel; for an all-zero mask it does not raise
but returns volume 0 and box_size (-s0, -s1, -s2). -/
theorem get_size_mask_spec (m : Arr3 Bool) :
    (get_size_mask m).2 = (maskSet m).card
    ∧ (∀ h : (maskSet m).Nonempty,
        ((get_size_mask m).1.1
            = ((maskSet m).image fun t => (t.1 : Int)).max' (h.image _)
              - ((maskSet m).image fun t => (t.1 : Int)).min' (h.image _) + 1
          ∧ (get_size_mask m).1.2.1
            = ((maskSet m).image fun t => (t.2.1 : Int)).max' (h.image _)
              - ((maskSet m).image fun t => (t.2.1 : Int)).min' (h.image _) + 1
          ∧ (get_size_mask m).1.2.2
            = ((maskSet m).image fun t => (t.2.2 : Int)).max' (h.image _)
              - ((maskSet m).image fun t => (t.2.2 : Int)).min' (h.image _) + 1)
        ∧ (1 ≤ (get_size_mask m).1.1 ∧ 1 ≤ (get_size_mask m).1.2.1
            ∧ 1 ≤ (get_size_mask m).1.2.2)
        ∧ ∀ t ∈ maskSet m,
            (((maskSet m).image fun t2 => (t2.1 : Int)).min' (h.image _) ≤ (t.1 : Int)
              ∧ (t.1 : Int) ≤ ((maskSet m).image fun t2 => (t2.1 : Int)).max' (h.image _))
            ∧ (((maskSet m).image fun t2 => (t2.2.1 : Int)).min' (h.image _) ≤ (t.2.1 : Int)
              ∧ (t.2.1 : Int) ≤ ((maskSet m).image fun t2 => (t2.2.1 : Int)).max' (h.image _))
            ∧ (((maskSet m).image fun t2 => (t2.2.2 : Int)).min' (h.image _) ≤ (t.2.2 : Int)
              ∧ (t.2.2 : Int) ≤ ((maskSet m).image fun t2 => (t2.2.2 : Int)).max' (h.image _)))
    ∧ (maskSet m = ∅ →
        get_size_mask m = ((-(m.s0 : Int), -(m.s1 : Int), -(m.s2 : Int)), 0)) := by
  refine ⟨?_, ?_, ?_⟩
  · rw [get_size_mask_eq]
    simpa [gsmTrues] using gsmTrues_length m
  · intro h
    have hmin0 := foldl_min_eq_min' ((maskSet m).image fun t => (t.1 : Int))
      ((gsmTrues m).map (fun t => (t.1 : Int))) (mem_gsmTrues_map m _) (m.s0 : Int)
      (by
        intro x hx
        obtain ⟨t, ht, rfl⟩ := Finset.mem_image.mp hx
        have := ((mem_maskSet m t).mp ht).1.1
        omega)
      (h.image _)
    have hmax0 := foldl_max_eq_max' ((maskSet m).image fun t => (t.1 : Int))
      ((gsmTrues m).map (fun t => (t.1 : Int))) (mem_gsmTrues_map m _) (-1)
      (by
        intro x hx
        obtain ⟨t, ht, rfl⟩ := Finset.mem_image.mp hx
        omega)
      (h.image _)
    have hmin1 := foldl_min_eq_min' ((maskSet m).image fun t => (t.2.1 : Int))
      ((gsmTrues m).map (fun t => (t.2.1 : Int))) (mem_gsmTrues_map m _) (m.s1 : Int)
      (by
        intro x hx
        obtain ⟨t, ht, rfl⟩ := Finset.mem_image.mp hx
        have := ((mem_maskSet m t).mp ht).1.2.1
        omega)
      (h.image _)
    have hmax1 := foldl_max_eq_max' ((maskSet m).image fun t => (t.2.1 : Int))
      ((gsmTrues m).map (fun t => (t.2.1 : Int))) (mem_gsmTrues_map m _) (-1)
      (by
        intro x hx
        obtain ⟨t, ht, rfl⟩ := Finset.mem_image.mp hx
        omega)
      (h.image _)
    have hmin2 := foldl_min_eq_min' ((maskSet m).image fun t => (t.2.2 : Int))
      ((gsmTrues m).map (fun t => (t.2.2 : Int))) (mem_gsmTrues_map m _) (m.s2 : Int)
      (by
        intro x hx
        obtain ⟨t, ht, rfl⟩ := Finset.mem_image.mp hx
        have := ((mem_maskSet m t).mp ht).1.2.2
        omega)
      (h.image _)
    have hmax2 := foldl_max_eq_max' ((maskSet m).image fun t => (t.2.2 : Int))
      ((gsmTrues m).map (fun t => (t.2.2 : Int))) (mem_gsmTrues_map m _) (-1)
      (by
        intro x hx
        obtain ⟨t, ht, rfl⟩ := Finset.mem_image.mp hx
        omega)
      (h.image _)
    refine ⟨⟨?_, ?_, ?_⟩, ⟨?_, ?_, ?_⟩, ?_⟩
    · rw [get_size_mask_eq]
      show _ - _ + 1 = _
      rw [hmin0, hmax0]
    · rw [get_size_mask_eq]
      show _ - _ + 1 = _
      rw [hmin1, hmax1]
    · rw [get_size_mask_eq]
      show _ - _ + 1 = _
      rw [hmin2, hmax2]
    · rw [get_size_mask_eq]
      show (1 : Int) ≤ _ - _ + 1
      rw [hmin0, hmax0]
      have := Finset.min'_le _ _ (Finset.max'_mem ((maskSet m).image fun t => (t.1 : Int))
        (h.image _))
      omega
    · rw [get_size_mask_eq]
      show (1 : Int) ≤ _ - _ + 1
      rw [hmin1, hmax1]
      have := Finset.min'_le _ _ (Finset.max'_mem ((maskSet m).image fun t => (t.2.1 : Int))
        (h.image _))
      omega
    · rw [get_size_mask_eq]
      show (1 : Int) ≤ _ - _ + 1
      rw [hmin2, hmax2]
      have := Finset.min'_le _ _ (Finset.max'_mem ((maskSet m).image fun t => (t.2.2 : Int))
        (h.image _))
      omega
    · intro t ht
      refine ⟨⟨?_, ?_⟩, ⟨?_, ?_⟩, ⟨?_, ?_⟩⟩
      · exact Finset.min'_le _ _ (Finset.mem_image_of_mem (fun t2 => (t2.1 : Int)) ht)
      · exact Finset.le_max' _ _ (Finset.mem_image_of_mem (fun t2 => (t2.1 : Int)) ht)
      · exact Finset.min'_le _ _ (Finset.mem_image_of_mem (fun t2 => (t2.2.1 : Int)) ht)
      · exact Finset.le_max' _ _ (Finset.mem_image_of_mem (fun t2 => (t2.2.1 : Int)) ht)
      · exact Finset.min'_le _ _ (Finset.mem_image_of_mem (fun t2 => (t2.2.2 : Int)) ht)
      · exact Finset.le_max' _ _ (Finset.mem_image_of_mem (fun t2 => (t2.2.2 : Int)) ht)
  · intro h0
    have htr : gsmTrues m = [] := by
      rw [List.eq_nil_iff_forall_not_mem]
      intro t ht
      have hmem := (mem_gsmTrues m t).mp ht
      rw [h0] at hmem
      exact absurd hmem (Finset.not_mem_empty t)
    rw [get_size_mask_eq, htr]
    simp only [List.map_nil, List.foldl_nil, List.length_nil, Nat.add_zero, Prod.mk.injEq]
    refine ⟨⟨by omega, by omega, by omega⟩, trivial⟩

/-- Witness for C9: a 2x2x2 mask with a single set voxel at (0, 1, 0) has its
first box component at least 1, and the all-zero 1x1x1 mask yields box_size
(-1, -1, -1) with volume 0. -/
theorem get_size_mask_spec_witness :
    1 ≤ (get_size_mask ⟨2, 2, 2, fun x y z => decide (x = 0 ∧ y = 1 ∧ z = 0)⟩).1.1
    ∧ get_size_mask ⟨1, 1, 1, fun _ _ _ => false⟩
        = ((-((1 : Nat) : Int), -((1 : Nat) : Int), -((1 : Nat) : Int)), 0) := by
  constructor
  · exact ((get_size_mask_spec ⟨2, 2, 2, fun x y z => decide (x = 0 ∧ y = 1 ∧ z = 0)⟩).2.1
      (by decide)).2.1.1
  · exact (get_size_mask_spec ⟨1, 1, 1, fun _ _ _ => false⟩).2.2 (by decide)

/- C1: patient-level cross-validation folds. -/

theorem cvFoldLoop_mem (num_per : Nat) :
    ∀ (l : List String) (i : Nat) (prev : String) (pn : Nat) (b : Nat),
    b ∈ cvFoldLoop num_per l i prev pn →
    ∃ k, k < l.length ∧ b = i + k
      ∧ l.getD k "" ≠ (if k = 0 then prev else l.getD (k - 1) "") := by
  intro l
  induction l with
  | nil =>
    intro i prev pn b hb
    simp [cvFoldLoop] at hb
  | cons p rest ih =>
    intro i prev pn b hb
    rw [cvFoldLoop] at hb
    by_cases hp : p = prev
    · rw [if_pos hp] at hb
      obtain ⟨k, hk, hbk, hne⟩ := ih (i + 1) prev pn b hb
      refine ⟨k + 1, by simpa using Nat.succ_lt_succ hk, by omega, ?_⟩
      cases k with
      | zero =>
        simp only [if_neg (Nat.succ_ne_zero 0), List.getD_cons_succ, Nat.add_sub_cancel,
          List.getD_cons_zero]
        rw [if_pos rfl] at hne
        simpa [hp] using hne
      | succ k2 =>
        simp only [if_neg (Nat.succ_ne_zero (k2 + 1)), List.getD_cons_succ,
          Nat.add_sub_cancel]
        rw [if_neg (Nat.succ_ne_zero k2)] at hne
        simpa using hne
    · rw [if_neg hp] at hb
      have hshift : ∀ b2, b2 ∈ cvFoldLoop num_per rest (i + 1) p 1
          ∨ b2 ∈ cvFoldLoop num_per rest (i + 1) p (pn + 1) →
          ∃ k, k < (p :: rest).length ∧ b2 = i + k
            ∧ (p :: rest).getD k "" ≠ (if k = 0 then prev else (p :: rest).getD (k - 1) "") := by
        intro b2 hb2
        have hrec : ∃ k, k < rest.length ∧ b2 = (i + 1) + k
            ∧ rest.getD k "" ≠ (if k = 0 then p else rest.getD (k - 1) "") := by
          rcases hb2 with h | h
          · exact ih (i + 1) p 1 b2 h
          · exact ih (i + 1) p (pn + 1) b2 h
        obtain ⟨k, hk, hbk, hne⟩ := hrec
        refine ⟨k + 1, by simpa using Nat.succ_lt_succ hk, by omega, ?_⟩
        cases k with
        | zero =>
          simp only [if_neg (Nat.succ_ne_zero 0), List.getD_cons_succ, Nat.add_sub_cancel,
            List.getD_cons_zero]
          rw [if_pos rfl] at hne
          simpa using hne
        | succ k2 =>
          simp only [if_neg (Nat.succ_ne_zero (k2 + 1)), List.getD_cons_succ,
            Nat.add_sub_cancel]
          rw [if_neg (Nat.succ_ne_zero k2)] at hne
          simpa using hne
      by_cases hcap : num_per < pn + 1
      · rw [if_pos hcap] at hb
        rcases List.mem_cons.mp hb with hb0 | hb2
        · subst hb0
          refine ⟨0, by simp, by omega, ?_⟩
          simpa using hp
        · exact hshift b (Or.inl hb2)
      · rw [if_neg hcap] at hb
        exact hshift b (Or.inr hb)

theorem foldsIndices_mem (patients : List String) (np : Nat) (b : Nat)
    (hb : b ∈ foldsIndices patients np) :
    b = 0 ∨ b = patients.length
      ∨ (0 < b ∧ b < patients.length ∧ patients.getD b "" ≠ patients.getD (b - 1) "") := by
  unfold foldsIndices at hb
  rcases List.mem_cons.mp hb with h0 | h1
  · exact Or.inl h0
  rcases List.mem_append.mp h1 with h2 | h3
  · obtain ⟨k, hk, hbk, hne⟩ := cvFoldLoop_mem _ patients 0 "" 0 b h2
    by_cases hk0 : k = 0
    · exact Or.inl (by omega)
    · right
      right
      refine ⟨by omega, by omega, ?_⟩
      rw [if_neg hk0] at hne
      have hbeq : b = k := by omega
      rw [hbeq]
      exact hne
  · exact Or.inr (Or.inl (by simpa using h3))

theorem cv_all_or_none_aux (patients : List String)
    (hcont : ∀ c < patients.length, ∀ b2 ≤ c, ∀ a ≤ b2,
      patients.getD a "" = patients.getD c "" → patients.getD b2 "" = patients.getD a "")
    (lo hi : Nat)
    (hlo : lo = 0 ∨ lo = patients.length
      ∨ (0 < lo ∧ lo < patients.length ∧ patients.getD lo "" ≠ patients.getD (lo - 1) ""))
    (hhi : hi = 0 ∨ hi = patients.length
      ∨ (0 < hi ∧ hi < patients.length ∧ patients.getD hi "" ≠ patients.getD (hi - 1) ""))
    (j k : Nat) (hjk : j ≤ k) (hj : j < patients.length) (hk : k < patients.length)
    (hsame : patients.getD j "" = patients.getD k "") :
    (lo ≤ j ∧ j < hi) ↔ (lo ≤ k ∧ k < hi) := by
  constructor
  · rintro ⟨h1, h2⟩
    refine ⟨le_trans h1 hjk, ?_⟩
    by_contra hle
    push_neg at hle
    rcases hhi with h | h | ⟨hpos, hlt, hne⟩
    · omega
    · omega
    · have e1 : patients.getD hi "" = patients.getD j "" :=
        hcont k hk hi (by omega) j (by omega) hsame
      have e2 : patients.getD (hi - 1) "" = patients.getD j "" :=
        hcont k hk (hi - 1) (by omega) j (by omega) hsame
      exact hne (e1.trans e2.symm)
  · rintro ⟨h1, h2⟩
    refine ⟨?_, lt_of_le_of_lt hjk h2⟩
    by_contra hle
    push_neg at hle
    rcases hlo with h | h | ⟨hpos, hlt, hne⟩
    · omega
    · omega
    · have e1 : patients.getD lo "" = patients.getD j "" :=
        hcont k hk lo (by omega) j (by omega) hsame
      have e2 : patients.getD (lo - 1) "" = patients.getD j "" :=
        hcont k hk (lo - 1) (by omega) j (by omega) hsame
      exact hne (e1.trans e2.symm)

/-- C1: with patient_level_cv, assuming all slices of each patient occupy a
contiguous block of patients_whole and folds_indices has num_folds + 1 = 12
entries, every internal fold boundary falls at an index where the patient
identifier changes, and for every fold and every two slices of the same
patient, one lies in the fold's test block exactly when the other does: all
slices from one patient stay within the same fold. -/
theorem patient_level_cv_folds (patients : List String) (num_patients : Nat)
    (hcont : ∀ c < patients.length, ∀ b2 ≤ c, ∀ a ≤ b2,
      patients.getD a "" = patients.getD c "" → patients.getD b2 "" = patients.getD a "")
    (hlen : (foldsIndices patients num_patients).length = 12) :
    (∀ b ∈ foldsIndices patients num_patients, 0 < b → b < patients.length →
      patients.getD b "" ≠ patients.getD (b - 1) "")
    ∧ (∀ i, i + 1 < 12 → ∀ j k, j < patients.length → k < patients.length →
        patients.getD j "" = patients.getD k "" →
        (((foldsIndices patients num_patients).getD i 0 ≤ j
            ∧ j < (foldsIndices patients num_patients).getD (i + 1) 0)
          ↔ ((foldsIndices patients num_patients).getD i 0 ≤ k
            ∧ k < (foldsIndices patients num_patients).getD (i + 1) 0))) := by
  constructor
  · intro b hb hpos hlt
    rcases foldsIndices_mem patients num_patients b hb with h | h | ⟨_, _, hne⟩
    · omega
    · omega
    · exact hne
  · intro i hi j k hj hk hsame
    have hlo_mem : (foldsIndices patients num_patients).getD i 0
        ∈ foldsIndices patients num_patients := by
      rw [List.getD_eq_getElem _ _ (by omega)]
      exact List.getElem_mem _
    have hhi_mem : (foldsIndices patients num_patients).getD (i + 1) 0
        ∈ foldsIndices patients num_patients := by
      rw [List.getD_eq_getElem _ _ (by omega)]
      exact List.getElem_mem _
    have hlo := foldsIndices_mem patients num_patients _ hlo_mem
    have hhi := foldsIndices_mem patients num_patients _ hhi_mem
    rcases le_total j k with hjk | hjk
    · exact cv_all_or_none_aux patients hcont _ _ hlo hhi j k hjk hj hk hsame
    · exact (cv_all_or_none_aux patients hcont _ _ hlo hhi k j hjk hk hj hsame.symm).symm

/-- Witness for C1: twelve slices of eleven contiguous patients give twelve
fold boundaries, and the two slices of patient "a" fall in the same fold. -/
theorem patient_level_cv_folds_witness :
    ((foldsIndices ["a", "a", "b", "c", "d", "e", "f", "g", "h", "i", "j", "k"] 11).getD 0 0 ≤ 0
      ∧ 0 < (foldsIndices ["a", "a", "b", "c", "d", "e", "f", "g", "h", "i", "j", "k"] 11).getD 1 0)
    ↔ ((foldsIndices ["a", "a", "b", "c", "d", "e", "f", "g", "h", "i", "j", "k"] 11).getD 0 0 ≤ 1
      ∧ 1 < (foldsIndices ["a", "a", "b", "c", "d", "e", "f", "g", "h", "i", "j", "k"] 11).getD 1 0) :=
  (patient_level_cv_folds ["a", "a", "b", "c", "d", "e", "f", "g", "h", "i", "j", "k"] 11
    (by decide) (by decide)).2 0 (by omega) 0 1 (by decide) (by decide) (by decide)

/- C3: slice-level 10-fold cross-validation. -/

theorem rhe10_mono {a b : Nat} (hab : a ≤ b) : rhe10 a ≤ rhe10 b := by
  unfold rhe10
  split_ifs <;> omega

theorem foldBoundary_zero (n : Nat) : foldBoundary n 0 = 0 := by
  unfold foldBoundary
  rw [Nat.zero_mul]
  rfl

theorem foldBoundary_ten (n : Nat) : foldBoundary n 10 = n := by
  unfold foldBoundary rhe10
  split_ifs <;> omega

theorem foldBoundary_mono (n : Nat) {i j : Nat} (h : i ≤ j) :
    foldBoundary n i ≤ foldBoundary n j :=
  rhe10_mono (Nat.mul_le_mul_right n h)

theorem foldBoundary_exists (n m : Nat) (hm : m < n) :
    ∀ fuel j, j < 10 → foldBoundary n j ≤ m → 10 - j ≤ fuel →
    ∃ i, i < 10 ∧ foldBoundary n i ≤ m ∧ m < foldBoundary n (i + 1) := by
  intro fuel
  induction fuel with
  | zero =>
    intro j hj hle hfuel
    omega
  | succ f ih =>
    intro j hj hle hfuel
    by_cases hnext : m < foldBoundary n (j + 1)
    · exact ⟨j, hj, hle, hnext⟩
    · push_neg at hnext
      have hj1 : j + 1 < 10 := by
        by_contra hge
        have h10 : j + 1 = 10 := by omega
        rw [h10, foldBoundary_ten] at hnext
        omega
      exact ih (j + 1) hj1 hnext (by omega)

/-- C3: slice-level 10-fold cross-validation partitions the dataset: for every
n at least 1, every sample index lies in exactly one of the ten test blocks
[foldBoundary n i, foldBoundary n (i+1)), and in each fold the training part
x[:idx0] ++ x[idx1:] together with the test part x[idx0:idx1] is a permutation
of the whole set, so every sample occurs exactly once. -/
theorem slice_level_cv_partition (n : Nat) (hn : 1 ≤ n) :
    (∀ m, m < n → ∃! i, i < 10 ∧ foldBoundary n i ≤ m ∧ m < foldBoundary n (i + 1))
    ∧ (∀ (α : Type) (x : List α), x.length = n → ∀ i, i < 10 →
        ((x.take (foldBoundary n i) ++ x.drop (foldBoundary n (i + 1)))
          ++ (x.drop (foldBoundary n i)).take
              (foldBoundary n (i + 1) - foldBoundary n i)).Perm x) := by
  constructor
  · intro m hm
    obtain ⟨i, hi, h1, h2⟩ := foldBoundary_exists n m hm 10 0 (by omega)
      (by rw [foldBoundary_zero]; omega) (by omega)
    refine ⟨i, ⟨hi, h1, h2⟩, ?_⟩
    rintro i2 ⟨hi2, h12, h22⟩
    by_contra hne
    rcases Nat.lt_or_ge i2 i with hlt | hge
    · have := foldBoundary_mono n (show i2 + 1 ≤ i by omega)
      omega
    · have hgt : i < i2 := by omega
      have := foldBoundary_mono n (show i + 1 ≤ i2 by omega)
      omega
  · intro α x _ i _
    have hmono : foldBoundary n i ≤ foldBoundary n (i + 1) := foldBoundary_mono n (by omega)
    have hkey : x.take (foldBoundary n i)
        ++ ((x.drop (foldBoundary n i)).take (foldBoundary n (i + 1) - foldBoundary n i)
          ++ x.drop (foldBoundary n (i + 1))) = x := by
      have hdd : (x.drop (foldBoundary n i)).drop (foldBoundary n (i + 1) - foldBoundary n i)
          = x.drop (foldBoundary n (i + 1)) := by
        rw [List.drop_drop]
        congr 1
        omega
      rw [← hdd, List.take_append_drop, List.take_append_drop]
    have hperm : ((x.take (foldBoundary n i) ++ x.drop (foldBoundary n (i + 1)))
        ++ (x.drop (foldBoundary n i)).take (foldBoundary n (i + 1) - foldBoundary n i)).Perm
        (x.take (foldBoundary n i)
          ++ ((x.drop (foldBoundary n i)).take (foldBoundary n (i + 1) - foldBoundary n i)
            ++ x.drop (foldBoundary n (i + 1)))) := by
      rw [List.append_assoc]
      exact List.Perm.append_left _ List.perm_append_comm
    rw [hkey] at hperm
    exact hperm

/-- Witness for C3: for n = 3 and fold 0, training plus test parts permute the
whole three-element list. -/
theorem slice_level_cv_partition_witness :
    (((["a", "b", "c"].take (foldBoundary 3 0) ++ ["a", "b", "c"].drop (foldBoundary 3 (0 + 1)))
      ++ (["a", "b", "c"].drop (foldBoundary 3 0)).take
          (foldBoundary 3 (0 + 1) - foldBoundary 3 0)).Perm ["a", "b", "c"]) :=
  (slice_level_cv_partition 3 (by omega)).2 String ["a", "b", "c"] (by decide) 0 (by omega)

/- C2: trim_edges trimmed-set size. -/

theorem keepCheck_valid (sm : String)
    (hsm : sm = "slices" ∨ sm = "sizes" ∨ sm = "sizes_masks")
    (vl vr : Int) (x : Arr3 ℚ) (m : Arr3 Bool) :
    keepCheck sm vl vr x m
      = some (decide (vl < sortKey sm x m ∧ sortKey sm x m < vr)) := by
  rcases hsm with h | h | h <;> subst h <;> simp [keepCheck, sortKey]

theorem trimLoop_valid (sm : String)
    (hsm : sm = "slices" ∨ sm = "sizes" ∨ sm = "sizes_masks") (vl vr : Int) :
    ∀ items : List DataElt,
    trimLoop sm vl vr items
      = some (items.filter
          (fun e => decide (vl < sortKey sm e.1 e.2.2.2 ∧ sortKey sm e.1 e.2.2.2 < vr))) := by
  intro items
  induction items with
  | nil => rfl
  | cons e rest ih =>
    rw [trimLoop, keepCheck_valid sm hsm vl vr e.1 e.2.2.2, ih]
    by_cases hP : vl < sortKey sm e.1 e.2.2.2 ∧ sortKey sm e.1 e.2.2.2 < vr
    · simp [hP, List.filter_cons]
    · simp [hP, List.filter_cons]

theorem trim_edges_eq_of (array_sort : List Int) (sm : String) (x_set : List (Arr3 ℚ))
    (y_set : List Int) (patients : List String) (masks : List (Arr3 Bool))
    (trim_pos : ℚ × ℚ) (vl vr : Int) (kept : List DataElt)
    (h1 : pyGet (List.insertionSort (fun a b => a ≤ b) array_sort)
        (trimNumLeft array_sort.length trim_pos - 1) = some vl)
    (h2 : pyGet (List.insertionSort (fun a b => a ≤ b) array_sort)
        (0 - trimNumRight array_sort.length trim_pos) = some vr)
    (h3 : trimLoop sm vl vr (x_set.zip (y_set.zip (patients.zip masks))) = some kept) :
    trim_edges array_sort sm x_set y_set patients masks trim_pos
      = some (kept.map (fun e => e.1), kept.map (fun e => e.2.1),
              kept.map (fun e => e.2.2.1), kept.map (fun e => e.2.2.2)) := by
  simp only [trim_edges]
  rw [h1, h2]
  simp only [trimSelect]
  rw [h3]
  simp only [trimFinish]

theorem pyGet_nonneg (l : List Int) (i : Int) (h0 : 0 ≤ i) (h1 : i < (l.length : Int)) :
    pyGet l i = some (l.getD i.toNat 0) := by
  simp only [pyGet]
  rw [if_neg (by omega : ¬ i < 0)]
  exact if_pos ⟨h0, h1⟩

theorem pyGet_negidx (l : List Int) (i : Int) (h0 : i < 0) (h1 : 0 ≤ (l.length : Int) + i) :
    pyGet l i = some (l.getD ((l.length : Int) + i).toNat 0) := by
  simp only [pyGet]
  rw [if_pos h0]
  exact if_pos ⟨h1, by omega⟩

theorem mem_take_getD (s : List Int) (t : Nat) (x : Int) (hx : x ∈ s.take t) :
    ∃ m, m < t ∧ m < s.length ∧ s.getD m 0 = x := by
  obtain ⟨i, hi, hgi⟩ := List.mem_iff_getElem.mp hx
  have hlen : i < t ∧ i < s.length := by
    have h2 := hi
    simp only [List.length_take, Nat.lt_min] at h2
    exact h2
  refine ⟨i, hlen.1, hlen.2, ?_⟩
  have h2 : (s.take t)[i] = s[i] := List.getElem_take ..
  rw [List.getD_eq_getElem _ _ hlen.2, ← h2, hgi]

theorem mem_drop_getD (s : List Int) (t : Nat) (x : Int) (hx : x ∈ s.drop t) :
    ∃ m, t ≤ m ∧ m < s.length ∧ s.getD m 0 = x := by
  obtain ⟨i, hi, hgi⟩ := List.mem_iff_getElem.mp hx
  have hlen : t + i < s.length := by
    have h2 := hi
    simp only [List.length_drop] at h2
    omega
  refine ⟨t + i, by omega, hlen, ?_⟩
  have h2 : (s.drop t)[i] = s[t + i] := List.getElem_drop ..
  rw [List.getD_eq_getElem _ _ hlen, ← h2, hgi]

theorem getD_drop (s : List Int) (t m2 : Nat) (h : t + m2 < s.length) :
    (s.drop t).getD m2 0 = s.getD (t + m2) 0 := by
  have hm : m2 < (s.drop t).length := by
    simp only [List.length_drop]
    omega
  rw [List.getD_eq_getElem _ _ hm, List.getD_eq_getElem _ _ h]
  exact List.getElem_drop ..

theorem pairwise_lt_getD_le (s : List Int) (hs : s.Pairwise (· < ·)) (m1 m2 : Nat)
    (h12 : m1 ≤ m2) (h2 : m2 < s.length) : s.getD m1 0 ≤ s.getD m2 0 := by
  rcases Nat.eq_or_lt_of_le h12 with rfl | hlt
  · exact le_refl _
  · have h3 := (List.pairwise_iff_getElem.mp hs) m1 m2 (by omega) h2 hlt
    rw [List.getD_eq_getElem _ _ (by omega : m1 < s.length), List.getD_eq_getElem _ _ h2]
    exact le_of_lt h3

theorem pairwise_lt_getD_lt (s : List Int) (hs : s.Pairwise (· < ·)) (m1 m2 : Nat)
    (h12 : m1 < m2) (h2 : m2 < s.length) : s.getD m1 0 < s.getD m2 0 := by
  have h3 := (List.pairwise_iff_getElem.mp hs) m1 m2 (by omega) h2 h12
  rw [List.getD_eq_getElem _ _ (by omega : m1 < s.length), List.getD_eq_getElem _ _ h2]
  exact h3

theorem countP_between_strict (s : List Int) (hs : s.Pairwise (· < ·))
    (i j : Nat) (hij : i < j) (hj : j < s.length) :
    s.countP (fun k => decide (s.getD i 0 < k ∧ k < s.getD j 0)) = j - i - 1 := by
  have hi : i < s.length := by omega
  have hdd : (s.drop (i + 1)).drop (j - i - 1) = s.drop j := by
    rw [List.drop_drop]
    congr 1
    omega
  have e1 : (s.take (i + 1) ++ s.drop (i + 1)).countP
      (fun k => decide (s.getD i 0 < k ∧ k < s.getD j 0))
      = s.countP (fun k => decide (s.getD i 0 < k ∧ k < s.getD j 0)) := by
    rw [List.take_append_drop]
  have e2 : ((s.drop (i + 1)).take (j - i - 1) ++ (s.drop (i + 1)).drop (j - i - 1)).countP
      (fun k => decide (s.getD i 0 < k ∧ k < s.getD j 0))
      = (s.drop (i + 1)).countP (fun k => decide (s.getD i 0 < k ∧ k < s.getD j 0)) := by
    rw [List.take_append_drop]
  have hc1 : (s.take (i + 1)).countP
      (fun k => decide (s.getD i 0 < k ∧ k < s.getD j 0)) = 0 := by
    rw [List.countP_eq_zero]
    intro a ha hdec
    obtain ⟨m, hm1, hm2, hma⟩ := mem_take_getD s (i + 1) a ha
    have hle : s.getD m 0 ≤ s.getD i 0 := pairwise_lt_getD_le s hs m i (by omega) hi
    have hprop := of_decide_eq_true hdec
    rw [← hma] at hprop
    omega
  have hc3 : (s.drop j).countP
      (fun k => decide (s.getD i 0 < k ∧ k < s.getD j 0)) = 0 := by
    rw [List.countP_eq_zero]
    intro a ha hdec
    obtain ⟨m, hm1, hm2, hma⟩ := mem_drop_getD s j a ha
    have hle : s.getD j 0 ≤ s.getD m 0 := pairwise_lt_getD_le s hs j m hm1 hm2
    have hprop := of_decide_eq_true hdec
    rw [← hma] at hprop
    omega
  have hc2 : ((s.drop (i + 1)).take (j - i - 1)).countP
      (fun k => decide (s.getD i 0 < k ∧ k < s.getD j 0)) = j - i - 1 := by
    have hlen2 : ((s.drop (i + 1)).take (j - i - 1)).length = j - i - 1 := by
      simp only [List.length_take, List.length_drop]
      omega
    have hall : ∀ a ∈ (s.drop (i + 1)).take (j - i - 1),
        (fun k => decide (s.getD i 0 < k ∧ k < s.getD j 0)) a = true := by
      intro a ha
      obtain ⟨m, hm1, hm2, hma⟩ := mem_take_getD (s.drop (i + 1)) (j - i - 1) a ha
      have hpos : i + 1 + m < s.length := by
        simp only [List.length_drop] at hm2
        omega
      rw [getD_drop s (i + 1) m hpos] at hma
      have hlt1 : s.getD i 0 < s.getD (i + 1 + m) 0 :=
        pairwise_lt_getD_lt s hs i (i + 1 + m) (by omega) hpos
      have hlt2 : s.getD (i + 1 + m) 0 < s.getD j 0 :=
        pairwise_lt_getD_lt s hs (i + 1 + m) j (by omega) hj
      rw [← hma]
      exact decide_eq_true ⟨hlt1, hlt2⟩
    exact (List.countP_eq_length.mpr hall).trans hlen2
  rw [← e1, List.countP_append, hc1, ← e2, List.countP_append, hdd, hc2, hc3]
  omega

/-- C2 counterexample: with tied sort keys [1, 1, 2, 3] (slice counts of the
four volumes), sort_method "slices" and trim_pos (1/4, 3/4), the strict
comparisons against val_left = 1 remove both tied elements, so only 1 element
is returned although the claimed formula gives 4 - 1 - 1 = 2. -/
theorem trim_edges_count_cex :
    (trim_edges [1, 1, 2, 3] "slices"
        [⟨1, 1, 1, fun _ _ _ => 0⟩, ⟨1, 1, 1, fun _ _ _ => 0⟩,
         ⟨1, 1, 2, fun _ _ _ => 0⟩, ⟨1, 1, 3, fun _ _ _ => 0⟩]
        [0, 0, 0, 0] ["a", "b", "c", "d"]
        [⟨1, 1, 1, fun _ _ _ => false⟩, ⟨1, 1, 1, fun _ _ _ => false⟩,
         ⟨1, 1, 1, fun _ _ _ => false⟩, ⟨1, 1, 1, fun _ _ _ => false⟩]
        (1/4, 3/4)).map (fun r => r.2.1.length) = some 1
    ∧ ((4 : Int) - trimNumLeft 4 (1/4, 3/4)
        - (trimNumRight 4 (1/4, 3/4))) = 2
    ∧ ([1, 1, 2, 3] : List Int)
      = (([⟨1, 1, 1, fun _ _ _ => 0⟩, ⟨1, 1, 1, fun _ _ _ => 0⟩,
           ⟨1, 1, 2, fun _ _ _ => 0⟩, ⟨1, 1, 3, fun _ _ _ => 0⟩] : List (Arr3 ℚ)).zip
          (([0, 0, 0, 0] : List Int).zip ((["a", "b", "c", "d"] : List String).zip
            ([⟨1, 1, 1, fun _ _ _ => false⟩, ⟨1, 1, 1, fun _ _ _ => false⟩,
              ⟨1, 1, 1, fun _ _ _ => false⟩,
              ⟨1, 1, 1, fun _ _ _ => false⟩] : List (Arr3 Bool))))).map
        (fun e => sortKey "slices" e.1 e.2.2.2) := by
  have hnl : trimNumLeft ([1, 1, 2, 3] : List Int).length (1/4, 3/4) = 1 := by
    norm_num [trimNumLeft, rheQ]
  have hnr : trimNumRight ([1, 1, 2, 3] : List Int).length (1/4, 3/4) = 1 := by
    norm_num [trimNumRight, trimNumLeft, rheQ]
  have h1 : pyGet (List.insertionSort (fun a b => a ≤ b) ([1, 1, 2, 3] : List Int))
      (trimNumLeft ([1, 1, 2, 3] : List Int).length (1/4, 3/4) - 1) = some 1 := by
    rw [hnl]
    decide
  have h2 : pyGet (List.insertionSort (fun a b => a ≤ b) ([1, 1, 2, 3] : List Int))
      (0 - trimNumRight ([1, 1, 2, 3] : List Int).length (1/4, 3/4)) = some 3 := by
    rw [hnr]
    decide
  have h3 := trimLoop_valid "slices" (Or.inl rfl) 1 3
    (([⟨1, 1, 1, fun _ _ _ => 0⟩, ⟨1, 1, 1, fun _ _ _ => 0⟩,
       ⟨1, 1, 2, fun _ _ _ => 0⟩, ⟨1, 1, 3, fun _ _ _ => 0⟩] : List (Arr3 ℚ)).zip
      (([0, 0, 0, 0] : List Int).zip ((["a", "b", "c", "d"] : List String).zip
        ([⟨1, 1, 1, fun _ _ _ => false⟩, ⟨1, 1, 1, fun _ _ _ => false⟩,
          ⟨1, 1, 1, fun _ _ _ => false⟩, ⟨1, 1, 1, fun _ _ _ => false⟩] : List (Arr3 Bool)))))
  have hte := trim_edges_eq_of [1, 1, 2, 3] "slices"
    [⟨1, 1, 1, fun _ _ _ => 0⟩, ⟨1, 1, 1, fun _ _ _ => 0⟩,
     ⟨1, 1, 2, fun _ _ _ => 0⟩, ⟨1, 1, 3, fun _ _ _ => 0⟩]
    [0, 0, 0, 0] ["a", "b", "c", "d"]
    [⟨1, 1, 1, fun _ _ _ => false⟩, ⟨1, 1, 1, fun _ _ _ => false⟩,
     ⟨1, 1, 1, fun _ _ _ => false⟩, ⟨1, 1, 1, fun _ _ _ => false⟩]
    (1/4, 3/4) 1 3 _ h1 h2 h3
  refine ⟨?_, ?_, ?_⟩
  · rw [hte]
    rfl
  · norm_num [trimNumLeft, trimNumRight, rheQ]
  · decide

/-- C2 (amended): when the recomputed sort keys are pairwise distinct,
num_left and num_right are both at least 1, and num_left + num_right does not
exceed the dataset size, trim_edges succeeds and the returned dataset has
exactly len(array_sort) - num_left - num_right elements; with tied keys or a
zero num_left/num_right (Python negative indexing picks the extreme value)
the count can differ. -/
theorem trim_edges_count (array_sort : List Int) (sm : String)
    (x_set : List (Arr3 ℚ)) (y_set : List Int) (patients : List String)
    (masks : List (Arr3 Bool)) (trim_pos : ℚ × ℚ)
    (hsm : sm = "slices" ∨ sm = "sizes" ∨ sm = "sizes_masks")
    (hkeys : array_sort = (x_set.zip (y_set.zip (patients.zip masks))).map
      (fun e => sortKey sm e.1 e.2.2.2))
    (hnodup : array_sort.Nodup)
    (hl : 1 ≤ trimNumLeft array_sort.length trim_pos)
    (hr : 1 ≤ trimNumRight array_sort.length trim_pos)
    (hsum : trimNumLeft array_sort.length trim_pos + trimNumRight array_sort.length trim_pos
      ≤ (array_sort.length : Int)) :
    ∃ out, trim_edges array_sort sm x_set y_set patients masks trim_pos = some out
      ∧ (out.2.1.length : Int)
        = (array_sort.length : Int) - trimNumLeft array_sort.length trim_pos
          - trimNumRight array_sort.length trim_pos := by
  have hslen : (List.insertionSort (fun a b => a ≤ b) array_sort).length
      = array_sort.length :=
    (List.perm_insertionSort (fun a b => a ≤ b) array_sort).length_eq
  have h1 := pyGet_nonneg (List.insertionSort (fun a b => a ≤ b) array_sort)
    (trimNumLeft array_sort.length trim_pos - 1) (by omega) (by omega)
  have h2 := pyGet_negidx (List.insertionSort (fun a b => a ≤ b) array_sort)
    (0 - trimNumRight array_sort.length trim_pos) (by omega) (by omega)
  have h3 := trimLoop_valid sm hsm
    ((List.insertionSort (fun a b => a ≤ b) array_sort).getD
      (trimNumLeft array_sort.length trim_pos - 1).toNat 0)
    ((List.insertionSort (fun a b => a ≤ b) array_sort).getD
      (((List.insertionSort (fun a b => a ≤ b) array_sort).length : Int)
        + (0 - trimNumRight array_sort.length trim_pos)).toNat 0)
    (x_set.zip (y_set.zip (patients.zip masks)))
  have hte := trim_edges_eq_of array_sort sm x_set y_set patients masks trim_pos _ _ _ h1 h2 h3
  refine ⟨_, hte, ?_⟩
  rw [List.length_map]
  have hmap : (x_set.zip (y_set.zip (patients.zip masks))).countP
      (fun e => decide
        ((List.insertionSort (fun a b => a ≤ b) array_sort).getD
            (trimNumLeft array_sort.length trim_pos - 1).toNat 0 < sortKey sm e.1 e.2.2.2
          ∧ sortKey sm e.1 e.2.2.2
            < (List.insertionSort (fun a b => a ≤ b) array_sort).getD
              (((List.insertionSort (fun a b => a ≤ b) array_sort).length : Int)
                + (0 - trimNumRight array_sort.length trim_pos)).toNat 0))
      = ((x_set.zip (y_set.zip (patients.zip masks))).map
          (fun e => sortKey sm e.1 e.2.2.2)).countP
        (fun k => decide
          ((List.insertionSort (fun a b => a ≤ b) array_sort).getD
              (trimNumLeft array_sort.length trim_pos - 1).toNat 0 < k
            ∧ k < (List.insertionSort (fun a b => a ≤ b) array_sort).getD
              (((List.insertionSort (fun a b => a ≤ b) array_sort).length : Int)
                + (0 - trimNumRight array_sort.length trim_pos)).toNat 0)) := by
    simp only [List.countP_map, Function.comp_def]
  have hsort : (List.insertionSort (fun a b => a ≤ b) array_sort).Sorted (fun a b => a ≤ b) :=
    List.sorted_insertionSort (fun a b => a ≤ b) array_sort
  have hnd : (List.insertionSort (fun a b => a ≤ b) array_sort).Nodup :=
    (List.perm_insertionSort (fun a b => a ≤ b) array_sort).nodup_iff.mpr hnodup
  have hstrict : (List.insertionSort (fun a b => a ≤ b) array_sort).Pairwise (· < ·) :=
    (List.Pairwise.and hsort hnd).imp (fun hab => lt_of_le_of_ne hab.1 hab.2)
  have hbetween := countP_between_strict (List.insertionSort (fun a b => a ≤ b) array_sort)
    hstrict (trimNumLeft array_sort.length trim_pos - 1).toNat
    (((List.insertionSort (fun a b => a ≤ b) array_sort).length : Int)
      + (0 - trimNumRight array_sort.length trim_pos)).toNat
    (by omega) (by omega)
  have hchain : ((x_set.zip (y_set.zip (patients.zip masks))).filter
      (fun e => decide
        ((List.insertionSort (fun a b => a ≤ b) array_sort).getD
            (trimNumLeft array_sort.length trim_pos - 1).toNat 0 < sortKey sm e.1 e.2.2.2
          ∧ sortKey sm e.1 e.2.2.2
            < (List.insertionSort (fun a b => a ≤ b) array_sort).getD
              (((List.insertionSort (fun a b => a ≤ b) array_sort).length : Int)
                + (0 - trimNumRight array_sort.length trim_pos)).toNat 0))).length
      = (((List.insertionSort (fun a b => a ≤ b) array_sort).length : Int)
          + (0 - trimNumRight array_sort.length trim_pos)).toNat
        - (trimNumLeft array_sort.length trim_pos - 1).toNat - 1 := by
    rw [← List.countP_eq_length_filter, hmap, ← hkeys,
      ((List.perm_insertionSort (fun a b => a ≤ b) array_sort).countP_eq _).symm, hbetween]
  rw [hchain]
  omega

/-- Witness for C2 (amended): four volumes with distinct slice counts
1, 2, 3, 4 and trim_pos (1/4, 3/4) give num_left = num_right = 1 and a
trimmed dataset of 4 - 1 - 1 = 2 elements. -/
theorem trim_edges_count_witness :
    ∃ out, trim_edges [1, 2, 3, 4] "slices"
        [⟨1, 1, 1, fun _ _ _ => 0⟩, ⟨1, 1, 2, fun _ _ _ => 0⟩,
         ⟨1, 1, 3, fun _ _ _ => 0⟩, ⟨1, 1, 4, fun _ _ _ => 0⟩]
        [0, 0, 0, 0] ["a", "b", "c", "d"]
        [⟨1, 1, 1, fun _ _ _ => false⟩, ⟨1, 1, 1, fun _ _ _ => false⟩,
         ⟨1, 1, 1, fun _ _ _ => false⟩, ⟨1, 1, 1, fun _ _ _ => false⟩]
        (1/4, 3/4) = some out
      ∧ (out.2.1.length : Int)
        = (([1, 2, 3, 4] : List Int).length : Int)
          - trimNumLeft ([1, 2, 3, 4] : List Int).length (1/4, 3/4)
          - trimNumRight ([1, 2, 3, 4] : List Int).length (1/4, 3/4) :=
  trim_edges_count [1, 2, 3, 4] "slices"
    [⟨1, 1, 1, fun _ _ _ => 0⟩, ⟨1, 1, 2, fun _ _ _ => 0⟩,
     ⟨1, 1, 3, fun _ _ _ => 0⟩, ⟨1, 1, 4, fun _ _ _ => 0⟩]
    [0, 0, 0, 0] ["a", "b", "c", "d"]
    [⟨1, 1, 1, fun _ _ _ => false⟩, ⟨1, 1, 1, fun _ _ _ => false⟩,
     ⟨1, 1, 1, fun _ _ _ => false⟩, ⟨1, 1, 1, fun _ _ _ => false⟩]
    (1/4, 3/4) (Or.inl rfl) (by decide) (by decide)
    (by norm_num [trimNumLeft, rheQ])
    (by norm_num [trimNumRight, trimNumLeft, rheQ])
    (by norm_num [trimNumLeft, trimNumRight, rheQ])

/- Helper lemmas for the parallel-length invariants (C4). -/

theorem foldl_pres {α β : Type} (P : α → Prop) (f : α → β → α)
    (h : ∀ a b, P a → P (f a b)) (l : List β) (init : α) (hi : P init) :
    P (l.foldl f init) := by
  induction l generalizing init with
  | nil => exact hi
  | cons b t ih => exact ih (f init b) (h init b hi)

theorem trimFinish_lens (r : Option (List DataElt)) :
    (trimFinish r).elim True EqLens4 := by
  cases r with
  | none => trivial
  | some kept => simp [trimFinish, EqLens4]

theorem trimSelect_lens (sm : String) (zipped : List DataElt) (o1 o2 : Option Int) :
    (trimSelect sm zipped o1 o2).elim True EqLens4 := by
  cases o1 with
  | none => cases o2 <;> trivial
  | some v1 =>
    cases o2 with
    | none => trivial
    | some v2 => exact trimFinish_lens _

theorem g2dStep_lens (st : Option Dataset4) (image : Arr3 ℚ) (label : Int)
    (patient : String) (mask_image : Arr3 Bool) (h : st.elim True EqLens4) :
    (g2dStep st image label patient mask_image).elim True EqLens4 := by
  cases st with
  | none => trivial
  | some d =>
    obtain ⟨xs, ys, ps, ms⟩ := d
    rcases xs with _ | ⟨x0, xt⟩
    · simp [g2dStep, EqLens4]
    · rcases ms with _ | ⟨m0, mt⟩
      · simp [g2dStep]
      · simp only [g2dStep, List.head?_cons]
        split_ifs with hsh
        · simp only [Option.elim, EqLens4] at h ⊢
          simp only [List.length_append, List.length_cons, List.length_nil] at h ⊢
          omega
        · trivial

theorem g2dVolume_lens (spp rotations : Nat) (st0 : Option Dataset4) (volume : Arr3 ℚ)
    (label : Int) (patient : String) (mask : Arr3 Bool) (h : st0.elim True EqLens4) :
    (g2dVolume spp rotations st0 volume label patient mask).elim True EqLens4 := by
  refine foldl_pres (fun st : Option Dataset4 => st.elim True EqLens4) _ ?_ _ _ h
  intro a r ha
  exact foldl_pres (fun st : Option Dataset4 => st.elim True EqLens4) _
    (fun a2 idx ha2 => g2dStep_lens _ _ _ _ _ ha2) _ _ ha

theorem g2dItemStep_lens (spp rotations : Nat) (normalize : Bool) (st : Option Dataset4)
    (e : Arr3 ℚ × Int × String × Arr3 Bool) (h : st.elim True EqLens4) :
    (g2dItemStep spp rotations normalize st e).elim True EqLens4 := by
  cases st with
  | none => trivial
  | some st2 =>
    cases hn : (if normalize then normalizeVol e.1 else some e.1) with
    | none => simp [g2dItemStep, hn]
    | some w =>
      simp only [g2dItemStep, hn]
      exact g2dVolume_lens _ _ _ _ _ _ _ h

theorem generate_2D_lens_all (samples : List (Arr3 ℚ)) (labels : List Int)
    (patients : List String) (masks : List (Arr3 Bool)) (spp : Nat)
    (rotate_data normalize : Bool) :
    (generate_2D_dataset samples labels patients masks spp rotate_data normalize).elim
      True EqLens4 := by
  have hres : ((samples.zip (labels.zip (patients.zip masks))).foldl
      (g2dItemStep spp (if rotate_data then 4 else 1) normalize)
      (some ([], [], [], []))).elim True EqLens4 :=
    foldl_pres (fun st : Option Dataset4 => st.elim True EqLens4) _
      (fun a b ha => g2dItemStep_lens _ _ _ a b ha) _ _ ⟨rfl, rfl, rfl⟩
  rcases hF : (samples.zip (labels.zip (patients.zip masks))).foldl
      (g2dItemStep spp (if rotate_data then 4 else 1) normalize)
      (some ([], [], [], [])) with _ | ⟨xs, ys, ps, ms⟩
  · simp [generate_2D_dataset, hF]
  · rw [hF] at hres
    rcases xs with _ | ⟨x0, xt⟩
    · simp [generate_2D_dataset, hF]
    · simp only [generate_2D_dataset, hF]
      exact hres

theorem EqLens_initTT : EqLens initTT := ⟨⟨rfl, rfl, rfl⟩, ⟨rfl, rfl, rfl⟩⟩

theorem EqLens_pushTrain (st : TT) (v : Arr3 ℚ) (y : Fin 2) (p : String) (m : Arr3 Bool)
    (h : EqLens st) : EqLens (pushTrain st v y p m) := by
  simp only [EqLens, pushTrain, List.length_append, List.length_cons,
    List.length_nil] at h ⊢
  omega

theorem EqLens_pushTest (st : TT) (v : Arr3 ℚ) (y : Fin 2) (p : String) (m : Arr3 Bool)
    (h : EqLens st) : EqLens (pushTest st v y p m) := by
  simp only [EqLens, pushTest, List.length_append, List.length_cons,
    List.length_nil] at h ⊢
  omega

theorem distStep_lens (medians : Fin 2 → ℚ) (ratio : ℚ) (absNums : List Int) (st : TT)
    (e : Nat × Fin 2 × String × Arr3 ℚ × Arr3 Bool) (h : EqLens st) :
    EqLens (distStep medians ratio absNums st e) := by
  simp only [distStep]
  split_ifs <;>
    first
      | exact h
      | exact EqLens_pushTrain _ _ _ _ _ h
      | exact EqLens_pushTest _ _ _ _ _ h

theorem medStep_lens (ratio : ℚ) (x_set : List (Arr3 ℚ)) (patients : List String)
    (masks : List (Arr3 Bool)) (label : Fin 2) (st : TT) (index : Nat) (h : EqLens st) :
    EqLens (medStep ratio x_set patients masks label st index) := by
  simp only [medStep]
  split_ifs <;>
    first
      | exact EqLens_pushTrain _ _ _ _ _ h
      | exact EqLens_pushTest _ _ _ _ _ h

theorem popLast_lens {α : Type} (l : List α) (a : α) (l2 : List α)
    (h : popLast l = some (a, l2)) : l2.length + 1 = l.length := by
  unfold popLast at h
  rcases hg : l.getLast? with _ | b
  · rw [hg] at h
    exact Option.noConfusion h
  · rw [hg] at h
    have hne : l ≠ [] := by
      intro he
      subst he
      simp at hg
    have hp : 0 < l.length := List.length_pos.mpr hne
    have h2 : l.dropLast = l2 := congrArg Prod.snd (Option.some.inj h)
    rw [← h2, List.length_dropLast]
    omega

theorem rebalance_lens (ratio : ℚ) (st : TT) (h : EqLens st) :
    (rebalance ratio st).elim True EqLens := by
  simp only [rebalance]
  split_ifs with h0 h1 h2
  · trivial
  · rcases hx : popLast st.teX with _ | ⟨x, xs⟩ <;>
      rcases hy : popLast st.teY with _ | ⟨y, ys⟩ <;>
      rcases hp : popLast st.teP with _ | ⟨p, ps⟩ <;>
      rcases hm : popLast st.teM with _ | ⟨m, ms⟩ <;>
      try trivial
    have e1 := popLast_lens st.teX x xs hx
    have e2 := popLast_lens st.teY y ys hy
    have e3 := popLast_lens st.teP p ps hp
    have e4 := popLast_lens st.teM m ms hm
    show EqLens _
    simp only [EqLens, List.length_append, List.length_cons, List.length_nil] at h ⊢
    omega
  · rcases hx : popLast st.trX with _ | ⟨x, xs⟩ <;>
      rcases hy : popLast st.trY with _ | ⟨y, ys⟩ <;>
      rcases hp : popLast st.trP with _ | ⟨p, ps⟩ <;>
      rcases hm : popLast st.trM with _ | ⟨m, ms⟩ <;>
      try trivial
    have e1 := popLast_lens st.trX x xs hx
    have e2 := popLast_lens st.trY y ys hy
    have e3 := popLast_lens st.trP p ps hp
    have e4 := popLast_lens st.trM m ms hm
    show EqLens _
    simp only [EqLens, List.length_append, List.length_cons, List.length_nil] at h ⊢
    omega
  · exact h

theorem improvedStage_lens (medians : Fin 2 → ℚ) (ratio : ℚ) (x_set : List (Arr3 ℚ))
    (y_set : List (Fin 2)) (patients : List String) (masks : List (Arr3 Bool))
    (absNums : List Int) (k1 k2 k3 : Nat) :
    EqLens (improvedStage medians ratio x_set y_set patients masks absNums k1 k2 k3) := by
  simp only [improvedStage]
  exact foldl_pres EqLens _ (fun a b ha => medStep_lens ratio x_set patients masks 1 a b ha)
    _ _
    (foldl_pres EqLens _ (fun a b ha => medStep_lens ratio x_set patients masks 0 a b ha)
      _ _
      (foldl_pres EqLens _ (fun a b ha => distStep_lens medians ratio absNums a b ha) _ _
        EqLens_initTT))

theorem improved_split_lens (medians : Fin 2 → ℚ) (ratio : ℚ) (x_set : List (Arr3 ℚ))
    (y_set : List (Fin 2)) (patients : List String) (masks : List (Arr3 Bool))
    (absNums : List Int) :
    (improved_split medians ratio x_set y_set patients masks absNums).elim True EqLens := by
  simp only [improved_split]
  exact rebalance_lens ratio _
    (foldl_pres EqLens _ (fun a b ha => medStep_lens ratio x_set patients masks 1 a b ha)
      _ _
      (foldl_pres EqLens _ (fun a b ha => medStep_lens ratio x_set patients masks 0 a b ha)
        _ _
        (foldl_pres EqLens _ (fun a b ha => distStep_lens medians ratio absNums a b ha) _ _
          EqLens_initTT)))

/-- C4: every dataset-transforming operation preserves parallel-array length
equality.  The four lists returned by trim_edges have equal length whenever a
dataset is returned at all; the four outputs of generate_2D_dataset have equal
length whenever a dataset is returned; and throughout the train/test
distribution section of improved_save_data — after every iteration of the main
loop and of the two median loops, and after the final one-element rebalance
move — the four train lists have equal length and the four test lists have
equal length. -/
theorem parallel_lengths_invariant :
    (∀ (array_sort : List Int) (sm : String) (x_set : List (Arr3 ℚ)) (y_set : List Int)
        (patients : List String) (masks : List (Arr3 Bool)) (trim_pos : ℚ × ℚ),
      (trim_edges array_sort sm x_set y_set patients masks trim_pos).elim True EqLens4)
    ∧ (∀ (samples : List (Arr3 ℚ)) (labels : List Int) (patients : List String)
        (masks : List (Arr3 Bool)) (spp : Nat) (rotate_data normalize : Bool),
      (generate_2D_dataset samples labels patients masks spp rotate_data normalize).elim
        True EqLens4)
    ∧ (∀ (medians : Fin 2 → ℚ) (ratio : ℚ) (x_set : List (Arr3 ℚ)) (y_set : List (Fin 2))
        (patients : List String) (masks : List (Arr3 Bool)) (absNums : List Int)
        (k1 k2 k3 : Nat),
      EqLens (improvedStage medians ratio x_set y_set patients masks absNums k1 k2 k3))
    ∧ (∀ (medians : Fin 2 → ℚ) (ratio : ℚ) (x_set : List (Arr3 ℚ)) (y_set : List (Fin 2))
        (patients : List String) (masks : List (Arr3 Bool)) (absNums : List Int),
      (improved_split medians ratio x_set y_set patients masks absNums).elim True EqLens) :=
  ⟨fun array_sort sm x_set y_set patients masks trim_pos => by
      simp only [trim_edges]
      exact trimSelect_lens sm _ _ _,
    fun samples labels patients masks spp rotate_data normalize =>
      generate_2D_lens_all samples labels patients masks spp rotate_data normalize,
    fun medians ratio x_set y_set patients masks absNums k1 k2 k3 =>
      improvedStage_lens medians ratio x_set y_set patients masks absNums k1 k2 k3,
    fun medians ratio x_set y_set patients masks absNums =>
      improved_split_lens medians ratio x_set y_set patients masks absNums⟩

/- Helper lemmas for the generate_2D_dataset sample count (C6). -/

theorem rotK_s2 {α : Type} (v : Arr3 α) (r : Nat) : (rotK v r).s2 = v.s2 := by
  induction r with
  | zero => rfl
  | succ k ih => exact ih

theorem rotK_shape {α : Type} (v : Arr3 α) (n : Nat) (h0 : v.s0 = n) (h1 : v.s1 = n)
    (r : Nat) : (rotK v r).s0 = n ∧ (rotK v r).s1 = n := by
  induction r with
  | zero => exact ⟨h0, h1⟩
  | succ k ih => exact ⟨ih.2, ih.1⟩

theorem sliceZ_s2 {α : Type} (v : Arr3 α) (idx spp : Nat) (h : idx + spp ≤ v.s2) :
    (sliceZ v idx spp).s2 = spp := by
  simp only [sliceZ]
  omega

theorem g2dAppends_shape (spp rotations n : Nat) (volume : Arr3 ℚ) (label : Int)
    (patient : String) (mask : Arr3 Bool)
    (hv0 : volume.s0 = n) (hv1 : volume.s1 = n) (hm0 : mask.s0 = n) (hm1 : mask.s1 = n)
    (hm2 : mask.s2 = volume.s2) (hspp : spp ≤ volume.s2) :
    ∀ e ∈ g2dAppends spp rotations volume label patient mask,
      (e.1.s0 = n ∧ e.1.s1 = n ∧ e.1.s2 = spp)
        ∧ (e.2.2.2.s0 = n ∧ e.2.2.2.s1 = n ∧ e.2.2.2.s2 = spp) := by
  intro e he
  simp only [g2dAppends, List.mem_flatMap, List.mem_map, List.mem_range] at he
  obtain ⟨r, hr, idx, hidx, rfl⟩ := he
  have hidx2 : idx + spp ≤ volume.s2 := by
    rw [rotK_s2] at hidx
    simp only [sampleCount] at hidx
    rw [if_pos hspp] at hidx
    omega
  have hv := rotK_shape volume n hv0 hv1 r
  have hm := rotK_shape mask n hm0 hm1 r
  refine ⟨⟨hv.1, hv.2, ?_⟩, ⟨hm.1, hm.2, ?_⟩⟩
  · exact sliceZ_s2 _ idx spp (by rw [rotK_s2]; exact hidx2)
  · exact sliceZ_s2 _ idx spp (by rw [rotK_s2, hm2]; exact hidx2)

theorem g2dStep_run (n spp : Nat) (xs : List (Arr3 ℚ)) (ys : List Int) (ps : List String)
    (ms : List (Arr3 Bool)) (e : DataElt)
    (hxs : ShapeAll n spp xs) (hms : ShapeAll n spp ms)
    (hlen : xs.length = ys.length ∧ ys.length = ps.length ∧ ps.length = ms.length)
    (he1 : e.1.s0 = n ∧ e.1.s1 = n ∧ e.1.s2 = spp)
    (he2 : e.2.2.2.s0 = n ∧ e.2.2.2.s1 = n ∧ e.2.2.2.s2 = spp) :
    g2dStep (some (xs, ys, ps, ms)) e.1 e.2.1 e.2.2.1 e.2.2.2
      = some (xs ++ [e.1], ys ++ [e.2.1], ps ++ [e.2.2.1], ms ++ [e.2.2.2]) := by
  obtain ⟨h1, h2, h3⟩ := hlen
  rcases xs with _ | ⟨x0, xt⟩
  · simp only [List.length_nil] at h1
    have hys : ys = [] := List.eq_nil_of_length_eq_zero h1.symm
    subst hys
    simp only [List.length_nil] at h2
    have hps : ps = [] := List.eq_nil_of_length_eq_zero h2.symm
    subst hps
    simp only [List.length_nil] at h3
    have hms2 : ms = [] := List.eq_nil_of_length_eq_zero h3.symm
    subst hms2
    simp [g2dStep]
  · rcases ms with _ | ⟨m0, mt⟩
    · exfalso
      simp only [List.length_cons, List.length_nil] at h1 h2 h3
      omega
    · have hx0 := hxs x0 (by simp)
      have hm0 := hms m0 (by simp)
      have hcond : e.1.s0 = x0.s0 ∧ e.1.s1 = x0.s1 ∧ e.1.s2 = x0.s2
          ∧ e.2.2.2.s0 = m0.s0 ∧ e.2.2.2.s1 = m0.s1 ∧ e.2.2.2.s2 = m0.s2 :=
        ⟨he1.1.trans hx0.1.symm, he1.2.1.trans hx0.2.1.symm, he1.2.2.trans hx0.2.2.symm,
          he2.1.trans hm0.1.symm, he2.2.1.trans hm0.2.1.symm, he2.2.2.trans hm0.2.2.symm⟩
      simp only [g2dStep, List.head?_cons]
      rw [if_pos hcond]

theorem g2dFold_run (n spp : Nat) (L : List DataElt)
    (hL : ∀ e ∈ L, (e.1.s0 = n ∧ e.1.s1 = n ∧ e.1.s2 = spp)
      ∧ (e.2.2.2.s0 = n ∧ e.2.2.2.s1 = n ∧ e.2.2.2.s2 = spp)) :
    ∀ (xs : List (Arr3 ℚ)) (ys : List Int) (ps : List String) (ms : List (Arr3 Bool)),
      ShapeAll n spp xs → ShapeAll n spp ms →
      xs.length = ys.length ∧ ys.length = ps.length ∧ ps.length = ms.length →
      L.foldl (fun st e => g2dStep st e.1 e.2.1 e.2.2.1 e.2.2.2) (some (xs, ys, ps, ms))
        = some (xs ++ L.map (fun e => e.1), ys ++ L.map (fun e => e.2.1),
            ps ++ L.map (fun e => e.2.2.1), ms ++ L.map (fun e => e.2.2.2)) := by
  induction L with
  | nil =>
    intro xs ys ps ms _ _ _
    simp
  | cons a t ih =>
    intro xs ys ps ms hxs hms hlen
    have ha := hL a (by simp)
    rw [List.foldl_cons, g2dStep_run n spp xs ys ps ms a hxs hms hlen ha.1 ha.2]
    have hxs2 : ShapeAll n spp (xs ++ [a.1]) := by
      intro x hx
      rcases List.mem_append.mp hx with hx | hx
      · exact hxs x hx
      · simp at hx
        subst hx
        exact ha.1
    have hms2 : ShapeAll n spp (ms ++ [a.2.2.2]) := by
      intro x hx
      rcases List.mem_append.mp hx with hx | hx
      · exact hms x hx
      · simp at hx
        subst hx
        exact ha.2
    have hlen2 : (xs ++ [a.1]).length = (ys ++ [a.2.1]).length
        ∧ (ys ++ [a.2.1]).length = (ps ++ [a.2.2.1]).length
        ∧ (ps ++ [a.2.2.1]).length = (ms ++ [a.2.2.2]).length := by
      obtain ⟨h1, h2, h3⟩ := hlen
      simp only [List.length_append, List.length_cons, List.length_nil]
      omega
    rw [ih (fun x hx => hL x (by simp [hx])) (xs ++ [a.1]) (ys ++ [a.2.1])
      (ps ++ [a.2.2.1]) (ms ++ [a.2.2.2]) hxs2 hms2 hlen2]
    simp

theorem foldl_flatMap {α β γ : Type} (f : α → List β) (g : γ → β → γ) (l : List α)
    (init : γ) :
    (l.flatMap f).foldl g init = l.foldl (fun st a => (f a).foldl g st) init := by
  induction l generalizing init with
  | nil => rfl
  | cons a t ih => simp [List.flatMap_cons, List.foldl_append, ih]

theorem flatMap_congr_mem {α β : Type} (l : List α) (f g : α → List β)
    (h : ∀ a ∈ l, f a = g a) : l.flatMap f = l.flatMap g := by
  induction l with
  | nil => rfl
  | cons a t ih =>
    simp only [List.flatMap_cons]
    rw [h a (by simp), ih (fun x hx => h x (by simp [hx]))]

theorem g2dVolume_eq_fold (spp rotations : Nat) (st0 : Option Dataset4) (volume : Arr3 ℚ)
    (label : Int) (patient : String) (mask : Arr3 Bool) :
    g2dVolume spp rotations st0 volume label patient mask
      = (g2dAppends spp rotations volume label patient mask).foldl
          (fun st e => g2dStep st e.1 e.2.1 e.2.2.1 e.2.2.2) st0 := by
  simp only [g2dVolume, g2dAppends]
  rw [foldl_flatMap]
  congr 1
  funext st r
  rw [List.foldl_map]

theorem normalizeVol_some (v : Arr3 ℚ) (h0 : 0 < v.s0) (h1 : 0 < v.s1) (h2 : 0 < v.s2) :
    ∃ w, normalizeVol v = some w ∧ w.s0 = v.s0 ∧ w.s1 = v.s1 ∧ w.s2 = v.s2 := by
  have hmem : v.val 0 0 0 ∈ allVals v := by
    simp only [allVals, List.mem_flatMap, List.mem_map, List.mem_range]
    exact ⟨0, h0, 0, h1, 0, h2, rfl⟩
  rcases hv : allVals v with _ | ⟨a, rest⟩
  · rw [hv] at hmem
    exact absurd hmem (List.not_mem_nil _)
  · simp only [normalizeVol, hv]
    exact ⟨_, rfl, rfl, rfl, rfl⟩

theorem g2dAppends_map_label (spp rotations : Nat) (w : Arr3 ℚ) (label : Int)
    (patient : String) (mask : Arr3 Bool) :
    (g2dAppends spp rotations w label patient mask).map (fun e => e.2.1)
      = (List.range rotations).flatMap (fun _r =>
          List.replicate (sampleCount spp w.s2) label) := by
  simp only [g2dAppends, List.map_flatMap, List.map_map]
  refine flatMap_congr_mem _ _ _ ?_
  intro r hr
  have hc : ((fun e : DataElt => e.2.1) ∘ (fun idx =>
      ((sliceZ (rotK w r) idx spp, label, patient ++ rotSuffix r,
        sliceZ (rotK mask r) idx spp) : DataElt))) = fun idx => label := rfl
  rw [hc, rotK_s2, List.map_const', List.length_range]

theorem g2dAppends_map_patient (spp rotations : Nat) (w : Arr3 ℚ) (label : Int)
    (patient : String) (mask : Arr3 Bool) :
    (g2dAppends spp rotations w label patient mask).map (fun e => e.2.2.1)
      = (List.range rotations).flatMap (fun r =>
          List.replicate (sampleCount spp w.s2) (patient ++ rotSuffix r)) := by
  simp only [g2dAppends, List.map_flatMap, List.map_map]
  refine flatMap_congr_mem _ _ _ ?_
  intro r hr
  have hc : ((fun e : DataElt => e.2.2.1) ∘ (fun idx =>
      ((sliceZ (rotK w r) idx spp, label, patient ++ rotSuffix r,
        sliceZ (rotK mask r) idx spp) : DataElt))) = fun idx => patient ++ rotSuffix r := rfl
  rw [hc, rotK_s2, List.map_const', List.length_range]

theorem g2dOuter_run (spp rotations n : Nat) (normalize : Bool) (hn : 0 < n)
    (hspp : 0 < spp) :
    ∀ (items : List (Arr3 ℚ × Int × String × Arr3 Bool)) (xs : List (Arr3 ℚ))
      (ys : List Int) (ps : List String) (ms : List (Arr3 Bool)),
      (∀ e ∈ items, e.1.s0 = n ∧ e.1.s1 = n ∧ e.2.2.2.s0 = n ∧ e.2.2.2.s1 = n
        ∧ e.2.2.2.s2 = e.1.s2 ∧ spp ≤ e.1.s2) →
      ShapeAll n spp xs → ShapeAll n spp ms →
      xs.length = ys.length ∧ ys.length = ps.length ∧ ps.length = ms.length →
      ∃ xs2 ms2,
        items.foldl (g2dItemStep spp rotations normalize) (some (xs, ys, ps, ms))
          = some (xs ++ xs2,
              ys ++ items.flatMap (fun e => (List.range rotations).flatMap (fun _r =>
                List.replicate (sampleCount spp e.1.s2) e.2.1)),
              ps ++ items.flatMap (fun e => (List.range rotations).flatMap (fun r =>
                List.replicate (sampleCount spp e.1.s2) (e.2.2.1 ++ rotSuffix r))),
              ms ++ ms2)
        ∧ ShapeAll n spp xs2 ∧ ShapeAll n spp ms2
        ∧ xs2.length = (items.flatMap (fun e => (List.range rotations).flatMap (fun _r =>
            List.replicate (sampleCount spp e.1.s2) e.2.1))).length
        ∧ ms2.length = xs2.length := by
  intro items
  induction items with
  | nil =>
    intro xs ys ps ms _ _ _ _
    exact ⟨[], [], by simp, fun x hx => absurd hx (List.not_mem_nil _),
      fun x hx => absurd hx (List.not_mem_nil _), by simp, by simp⟩
  | cons a t ih =>
    intro xs ys ps ms hall hxs hms hlen
    have ha := hall a (by simp)
    obtain ⟨w, hw, hw0, hw1, hw2⟩ :
        ∃ w, (if normalize then normalizeVol a.1 else some a.1) = some w
          ∧ w.s0 = a.1.s0 ∧ w.s1 = a.1.s1 ∧ w.s2 = a.1.s2 := by
      cases normalize with
      | false =>
        refine ⟨a.1, ?_, rfl, rfl, rfl⟩
        simp
      | true =>
        have hns := normalizeVol_some a.1 (by rw [ha.1]; exact hn) (by rw [ha.2.1]; exact hn)
          (by have h2 := ha.2.2.2.2.2; omega)
        simpa using hns
    set L := g2dAppends spp rotations w a.2.1 a.2.2.1 a.2.2.2 with hLdef
    have hAPP : ∀ e ∈ L, (e.1.s0 = n ∧ e.1.s1 = n ∧ e.1.s2 = spp)
        ∧ (e.2.2.2.s0 = n ∧ e.2.2.2.s1 = n ∧ e.2.2.2.s2 = spp) := by
      rw [hLdef]
      exact g2dAppends_shape spp rotations n w a.2.1 a.2.2.1 a.2.2.2
        (hw0.trans ha.1) (hw1.trans ha.2.1) ha.2.2.1 ha.2.2.2.1
        (ha.2.2.2.2.1.trans hw2.symm) (by rw [hw2]; exact ha.2.2.2.2.2)
    have hstep : g2dItemStep spp rotations normalize (some (xs, ys, ps, ms)) a
        = L.foldl (fun st e => g2dStep st e.1 e.2.1 e.2.2.1 e.2.2.2)
            (some (xs, ys, ps, ms)) := by
      rw [hLdef]
      simp only [g2dItemStep, hw]
      exact g2dVolume_eq_fold spp rotations _ w a.2.1 a.2.2.1 a.2.2.2
    have hxs2 : ShapeAll n spp (xs ++ L.map (fun e => e.1)) := by
      intro x hx
      rcases List.mem_append.mp hx with hx | hx
      · exact hxs x hx
      · obtain ⟨e2, he2, rfl⟩ := List.mem_map.mp hx
        exact (hAPP e2 he2).1
    have hms2 : ShapeAll n spp (ms ++ L.map (fun e => e.2.2.2)) := by
      intro x hx
      rcases List.mem_append.mp hx with hx | hx
      · exact hms x hx
      · obtain ⟨e2, he2, rfl⟩ := List.mem_map.mp hx
        exact (hAPP e2 he2).2
    have hlen2 : (xs ++ L.map (fun e => e.1)).length = (ys ++ L.map (fun e => e.2.1)).length
        ∧ (ys ++ L.map (fun e => e.2.1)).length = (ps ++ L.map (fun e => e.2.2.1)).length
        ∧ (ps ++ L.map (fun e => e.2.2.1)).length
          = (ms ++ L.map (fun e => e.2.2.2)).length := by
      obtain ⟨h1, h2, h3⟩ := hlen
      simp only [List.length_append, List.length_map]
      omega
    obtain ⟨xs2, ms2, heq2, hxs3, hms3, hL2, hL3⟩ :=
      ih (xs ++ L.map (fun e => e.1)) (ys ++ L.map (fun e => e.2.1))
        (ps ++ L.map (fun e => e.2.2.1)) (ms ++ L.map (fun e => e.2.2.2))
        (fun x hx => hall x (by simp [hx])) hxs2 hms2 hlen2
    have hlab : L.map (fun e => e.2.1) = (List.range rotations).flatMap (fun _r =>
        List.replicate (sampleCount spp a.1.s2) a.2.1) := by
      rw [hLdef, g2dAppends_map_label, hw2]
    have hpat : L.map (fun e => e.2.2.1) = (List.range rotations).flatMap (fun r =>
        List.replicate (sampleCount spp a.1.s2) (a.2.2.1 ++ rotSuffix r)) := by
      rw [hLdef, g2dAppends_map_patient, hw2]
    refine ⟨L.map (fun e => e.1) ++ xs2, L.map (fun e => e.2.2.2) ++ ms2, ?_, ?_, ?_, ?_, ?_⟩
    · rw [List.foldl_cons, hstep,
        g2dFold_run n spp L hAPP xs ys ps ms hxs hms hlen, heq2]
      simp only [List.flatMap_cons, hlab, hpat, List.append_assoc]
    · intro x hx
      rcases List.mem_append.mp hx with hx | hx
      · obtain ⟨e2, he2, rfl⟩ := List.mem_map.mp hx
        exact (hAPP e2 he2).1
      · exact hxs3 x hx
    · intro x hx
      rcases List.mem_append.mp hx with hx | hx
      · obtain ⟨e2, he2, rfl⟩ := List.mem_map.mp hx
        exact (hAPP e2 he2).2
      · exact hms3 x hx
    · have hll := congrArg List.length hlab
      rw [List.length_map] at hll
      simp only [List.flatMap_cons, List.length_append, List.length_map]
      omega
    · simp only [List.length_append, List.length_map]
      omega

/-- C6 counterexample: generate_2D_dataset raises instead of returning the
claimed dataset in two situations permitted by the claim.  On empty input the
return statement raises a NameError (the dataset variables were never
assigned), although the claimed sample count is the empty sum; and for two
square volumes of different side lengths (1×1×1 and 2×2×1, each of depth ≥
slices_per_sample = 1, with masks of matching shape) np.concatenate raises a
ValueError on the second sample, although the claim promises 1 + 1 = 2
samples. -/
theorem generate_2D_dataset_cex :
    generate_2D_dataset [] [] [] [] 1 false false = none
    ∧ generate_2D_dataset
        [⟨1, 1, 1, fun _ _ _ => 0⟩, ⟨2, 2, 1, fun _ _ _ => 0⟩] [0, 0] ["a", "b"]
        [⟨1, 1, 1, fun _ _ _ => false⟩, ⟨2, 2, 1, fun _ _ _ => false⟩] 1 false false
      = none :=
  ⟨rfl, rfl⟩

/-- C6 (amended): for equal-length non-empty inputs in which every volume and
every mask is square with one common positive side length n in the first two
axes, each mask has the depth of its volume, and every volume depth is at
least slices_per_sample ≥ 1, generate_2D_dataset returns a dataset whose label
list is, per input element in order and per rotation (4 rotations with
rotate_data, otherwise only rotation 0), the element's label repeated once per
window position (depth − slices_per_sample + 1 positions); the patient list
carries the element's name with the rotation angle appended for rotations
r ≠ 0 and unchanged for r = 0; the sample and mask lists have the same length
as the label list; and every returned sample has shape
n × n × slices_per_sample. -/
theorem generate_2D_dataset_count (samples : List (Arr3 ℚ)) (labels : List Int)
    (patients : List String) (masks : List (Arr3 Bool)) (spp n : Nat)
    (rotate_data normalize : Bool)
    (hlen1 : labels.length = samples.length) (hlen2 : patients.length = samples.length)
    (hlen3 : masks.length = samples.length) (hne : samples ≠ [])
    (hn : 0 < n) (hspp : 0 < spp)
    (hsq : ∀ e ∈ samples.zip (labels.zip (patients.zip masks)),
      e.1.s0 = n ∧ e.1.s1 = n ∧ e.2.2.2.s0 = n ∧ e.2.2.2.s1 = n
        ∧ e.2.2.2.s2 = e.1.s2 ∧ spp ≤ e.1.s2) :
    ∃ out, generate_2D_dataset samples labels patients masks spp rotate_data normalize
        = some out
      ∧ out.2.1 = (samples.zip (labels.zip (patients.zip masks))).flatMap
          (fun e => (List.range (if rotate_data then 4 else 1)).flatMap (fun _r =>
            List.replicate (e.1.s2 - spp + 1) e.2.1))
      ∧ out.2.2.1 = (samples.zip (labels.zip (patients.zip masks))).flatMap
          (fun e => (List.range (if rotate_data then 4 else 1)).flatMap (fun r =>
            List.replicate (e.1.s2 - spp + 1) (e.2.2.1 ++ rotSuffix r)))
      ∧ out.1.length = out.2.1.length ∧ out.2.2.2.length = out.2.1.length
      ∧ ∀ x ∈ out.1, x.s0 = n ∧ x.s1 = n ∧ x.s2 = spp := by
  obtain ⟨xs2, ms2, heq, hxs2, hms2, hl2, hl3⟩ :=
    g2dOuter_run spp (if rotate_data then 4 else 1) n normalize hn hspp
      (samples.zip (labels.zip (patients.zip masks))) [] [] [] [] hsq
      (fun x hx => absurd hx (List.not_mem_nil _))
      (fun x hx => absurd hx (List.not_mem_nil _)) ⟨rfl, rfl, rfl⟩
  simp only [List.nil_append] at heq
  have hsc : ∀ e ∈ samples.zip (labels.zip (patients.zip masks)),
      sampleCount spp e.1.s2 = e.1.s2 - spp + 1 := by
    intro e he
    simp only [sampleCount]
    rw [if_pos (hsq e he).2.2.2.2.2]
  have hys : (samples.zip (labels.zip (patients.zip masks))).flatMap
      (fun e => (List.range (if rotate_data then 4 else 1)).flatMap (fun _r =>
        List.replicate (sampleCount spp e.1.s2) e.2.1))
      = (samples.zip (labels.zip (patients.zip masks))).flatMap
        (fun e => (List.range (if rotate_data then 4 else 1)).flatMap (fun _r =>
          List.replicate (e.1.s2 - spp + 1) e.2.1)) := by
    refine flatMap_congr_mem _ _ _ ?_
    intro e he
    rw [hsc e he]
  have hps : (samples.zip (labels.zip (patients.zip masks))).flatMap
      (fun e => (List.range (if rotate_data then 4 else 1)).flatMap (fun r =>
        List.replicate (sampleCount spp e.1.s2) (e.2.2.1 ++ rotSuffix r)))
      = (samples.zip (labels.zip (patients.zip masks))).flatMap
        (fun e => (List.range (if rotate_data then 4 else 1)).flatMap (fun r =>
          List.replicate (e.1.s2 - spp + 1) (e.2.2.1 ++ rotSuffix r))) := by
    refine flatMap_congr_mem _ _ _ ?_
    intro e he
    rw [hsc e he]
  have hitems : samples.zip (labels.zip (patients.zip masks)) ≠ [] := by
    have hil : (samples.zip (labels.zip (patients.zip masks))).length = samples.length := by
      simp [List.length_zip, hlen1, hlen2, hlen3]
    have hsl : 0 < samples.length := List.length_pos.mpr hne
    intro hcon
    rw [hcon] at hil
    simp only [List.length_nil] at hil
    omega
  obtain ⟨e0, he0⟩ := List.exists_mem_of_ne_nil _ hitems
  have hmem0 : e0.2.1 ∈ (samples.zip (labels.zip (patients.zip masks))).flatMap
      (fun e => (List.range (if rotate_data then 4 else 1)).flatMap (fun _r =>
        List.replicate (sampleCount spp e.1.s2) e.2.1)) := by
    refine List.mem_flatMap.mpr ⟨e0, he0, ?_⟩
    refine List.mem_flatMap.mpr ⟨0, List.mem_range.mpr ?_, ?_⟩
    · cases rotate_data <;> simp
    · refine List.mem_replicate.mpr ⟨?_, rfl⟩
      rw [hsc e0 he0]
      omega
  have hpos : 0 < ((samples.zip (labels.zip (patients.zip masks))).flatMap
      (fun e => (List.range (if rotate_data then 4 else 1)).flatMap (fun _r =>
        List.replicate (sampleCount spp e.1.s2) e.2.1))).length :=
    List.length_pos.mpr (List.ne_nil_of_mem hmem0)
  cases xs2 with
  | nil =>
    simp only [List.length_nil] at hl2
    omega
  | cons x0 xt =>
    refine ⟨(x0 :: xt,
        (samples.zip (labels.zip (patients.zip masks))).flatMap
          (fun e => (List.range (if rotate_data then 4 else 1)).flatMap (fun _r =>
            List.replicate (sampleCount spp e.1.s2) e.2.1)),
        (samples.zip (labels.zip (patients.zip masks))).flatMap
          (fun e => (List.range (if rotate_data then 4 else 1)).flatMap (fun r =>
            List.replicate (sampleCount spp e.1.s2) (e.2.2.1 ++ rotSuffix r))),
        ms2), ?_, ?_, ?_, ?_, ?_, ?_⟩
    · simp only [generate_2D_dataset]
      rw [heq]
    · exact hys
    · exact hps
    · exact hl2
    · exact hl3.trans hl2
    · exact hxs2

/-- Witness for C6 (amended): one 1×1×2 volume with label 7 and patient "a",
slices_per_sample 1 and no rotation gives a dataset of 2 - 1 + 1 = 2 samples
that all carry label 7 and patient "a". -/
theorem generate_2D_dataset_count_witness :
    ∃ out, generate_2D_dataset [⟨1, 1, 2, fun _ _ _ => 0⟩] [7] ["a"]
        [⟨1, 1, 2, fun _ _ _ => false⟩] 1 false false = some out
      ∧ out.2.1 = (([⟨1, 1, 2, fun _ _ _ => 0⟩] : List (Arr3 ℚ)).zip
          (([7] : List Int).zip ((["a"] : List String).zip
            ([⟨1, 1, 2, fun _ _ _ => false⟩] : List (Arr3 Bool))))).flatMap
          (fun e => (List.range (if false then 4 else 1)).flatMap (fun _r =>
            List.replicate (e.1.s2 - 1 + 1) e.2.1))
      ∧ out.2.2.1 = (([⟨1, 1, 2, fun _ _ _ => 0⟩] : List (Arr3 ℚ)).zip
          (([7] : List Int).zip ((["a"] : List String).zip
            ([⟨1, 1, 2, fun _ _ _ => false⟩] : List (Arr3 Bool))))).flatMap
          (fun e => (List.range (if false then 4 else 1)).flatMap (fun r =>
            List.replicate (e.1.s2 - 1 + 1) (e.2.2.1 ++ rotSuffix r)))
      ∧ out.1.length = out.2.1.length ∧ out.2.2.2.length = out.2.1.length
      ∧ ∀ x ∈ out.1, x.s0 = 1 ∧ x.s1 = 1 ∧ x.s2 = 1 :=
  generate_2D_dataset_count [⟨1, 1, 2, fun _ _ _ => 0⟩] [7] ["a"]
    [⟨1, 1, 2, fun _ _ _ => false⟩] 1 1 false false rfl rfl rfl (by simp)
    (by decide) (by decide)
    (by
      intro e he
      simp only [List.zip_cons_cons, List.zip_nil_right, List.mem_cons,
        List.not_mem_nil, or_false] at he
      subst he
      exact ⟨rfl, rfl, rfl, rfl, rfl, by decide⟩)
